import Mathlib

/-!
Verification of the CoSA BMC engine core (cosa/analyzers/bmc.py) against its
natural-language specification.  The Python code is shallowly embedded: the
time-index caches built by `BMC._init_at_time` become association lists, the
formula library becomes an inductive `Formula` type, solver interaction
becomes explicit state passing with an oracle supplying check-sat answers and
model values, and fatal errors / Python exceptions become an `Err` sum.
-/

namespace CoSA

/-- Variable names.  A base symbol `x` exists in the three flavors produced by
the (collision-free, per the spec) deterministic name transforms: current
`base x`, next `prime x`, previous `prev x`; and for each integer `t` the
forward-timed `timed x t` and the previous-timed `ptimed x t` instances.
Modelled from the spec: the name transforms `TS.get_prime_name`,
`TS.get_prev_name`, `TS.get_timed_name`, `TS.get_ptimed_name` live in
`cosa/core/transition_system.py`, which is not part of the given sources; the
spec only requires them to be deterministic and collision-free, which the
distinct constructors guarantee. -/
inductive VName where
  | base : String → VName
  | prime : String → VName
  | prev : String → VName
  | timed : String → Int → VName
  | ptimed : String → Int → VName
deriving DecidableEq, Repr

/-- Formulas of the pysmt fragment the BMC core manipulates (Boolean
skeleton; `eq` stands for `EqualsOrIff`). -/
inductive Formula where
  | tru
  | fls
  | var : VName → Formula
  | not : Formula → Formula
  | and : Formula → Formula → Formula
  | or : Formula → Formula → Formula
  | implies : Formula → Formula → Formula
  | iff : Formula → Formula → Formula
  | eq : Formula → Formula → Formula
deriving DecidableEq, Repr

/-- pysmt `And` applied to a list: `And([]) = TRUE`, `And([f]) = f`. -/
def andList : List Formula → Formula
  | [] => .tru
  | [f] => f
  | f :: g :: fs => .and f (andList (g :: fs))

/-- pysmt `Or` applied to a list: `Or([]) = FALSE`, `Or([f]) = f`. -/
def orList : List Formula → Formula
  | [] => .fls
  | [f] => f
  | f :: g :: fs => .or f (orList (g :: fs))

/-- Free variables of a formula.  Modelled from the spec: the formula
library operation `get_free_variables` (cosa/util/formula_mngm.py, not part
of the given sources) returns the set of symbols occurring in the formula. -/
def freeVars : Formula → List VName
  | .tru => []
  | .fls => []
  | .var v => [v]
  | .not f => freeVars f
  | .and f g => (freeVars f) ∪ (freeVars g)
  | .or f g => (freeVars f) ∪ (freeVars g)
  | .implies f g => (freeVars f) ∪ (freeVars g)
  | .iff f g => (freeVars f) ∪ (freeVars g)
  | .eq f g => (freeVars f) ∪ (freeVars g)

/-- Substitution by a variable-to-variable mapping.  Modelled from the spec:
`substitute(f, map)` (cosa/util/formula_mngm.py, not part of the given
sources) replaces every variable in the domain of the mapping by its image
and leaves other variables untouched. -/
def substF (m : List (VName × VName)) : Formula → Formula
  | .tru => .tru
  | .fls => .fls
  | .var v => .var ((m.lookup v).getD v)
  | .not f => .not (substF m f)
  | .and f g => .and (substF m f) (substF m g)
  | .or f g => .or (substF m f) (substF m g)
  | .implies f g => .implies (substF m f) (substF m g)
  | .iff f g => .iff (substF m f) (substF m g)
  | .eq f g => .eq (substF m f) (substF m g)

/-- Boolean semantics of formulas under an assignment of the (Boolean-viewed)
variables; used to state that two formula constructions are equivalent. -/
def evalF (σ : VName → Bool) : Formula → Bool
  | .tru => true
  | .fls => false
  | .var v => σ v
  | .not f => !evalF σ f
  | .and f g => evalF σ f && evalF σ g
  | .or f g => evalF σ f || evalF σ g
  | .implies f g => !evalF σ f || evalF σ g
  | .iff f g => evalF σ f == evalF σ g
  | .eq f g => evalF σ f == evalF σ g

/-- Top-level conjuncts of a formula, fully flattened; this is pysmt
`conjunctive_partition` as used by `BMC._add_assertion`. -/
def conjuncts : Formula → List Formula
  | .and f g => conjuncts f ++ conjuncts g
  | f => [f]

/-- Whether a formula contains a next-flavor (primed) variable.  Modelled
from the spec: `TS.has_next` (cosa/core/transition_system.py, not part of the
given sources) is the predicate "contains a next-state variable". -/
def hasNext (f : Formula) : Bool :=
  (freeVars f).any fun v => match v with
    | .prime _ => true
    | _ => false

/-- Rename every current-flavor variable to its next flavor.  Modelled from
the spec: `TS.to_next` (not part of the given sources) achieves "primed names
denote evaluation at time 1 by the usual next-variable substitution". -/
def toNext (f : Formula) : Formula :=
  substF ((freeVars f).filterMap fun v => match v with
    | .base x => some (VName.base x, VName.prime x)
    | _ => none) f

/-- pysmt `simplify`.  Modelled from the spec: an external
semantics-preserving simplifier outside the repository; modelled as the
identity on formulas. -/
def simplifyF (f : Formula) : Formula := f

/-! ### Time-index caches (`BMC._init_at_time`, bmc.py lines 130-176) -/

/-- The forward entries appended for loop index `t` of `_init_at_time`:
for each variable `x`, `x ↦ x@t`, `x' ↦ x@(t+1)`, `x^ ↦ x@(t-1)`
(bmc.py lines 158-160). -/
def varmapfAt (vars : List String) (t : Int) : List (VName × VName) :=
  vars.flatMap fun x =>
    [(VName.base x, VName.timed x t),
     (VName.prime x, VName.timed x (t + 1)),
     (VName.prev x, VName.timed x (t - 1))]

/-- The backward entries appended for loop index `t` of `_init_at_time`:
for each variable `x`, `x ↦ x#t`, `x' ↦ x#(t-1)`, `x^ ↦ x#(t+1)`
(bmc.py lines 163-165). -/
def varmapbAt (vars : List String) (t : Int) : List (VName × VName) :=
  vars.flatMap fun x =>
    [(VName.base x, VName.ptimed x t),
     (VName.prime x, VName.ptimed x (t - 1)),
     (VName.prev x, VName.ptimed x (t + 1))]

/-- The forward cache `self.varmapf_t` built by `_init_at_time(vars, maxtime)`:
for `t` in `range(maxtime+2)` the dictionary of forward entries is stored at
key `t` (bmc.py line 167). -/
def initAtTimeF (vars : List String) (maxtime : Nat) : List (Int × List (VName × VName)) :=
  (List.range (maxtime + 2)).map fun t : Nat => ((t : Int), varmapfAt vars (t : Int))

/-- The backward cache `self.varmapb_t` built by `_init_at_time(vars, maxtime)`
when the strategy is non-forward: for `t` in `range(maxtime+2)` the dictionary
of backward entries built with loop index `t` is stored at key `t - 1`
(bmc.py line 170); with a forward strategy the cache stays empty. -/
def initAtTimeB (vars : List String) (maxtime : Nat) (previous : Bool) :
    List (Int × List (VName × VName)) :=
  if previous then
    (List.range (maxtime + 2)).map fun t : Nat => ((t : Int) - 1, varmapbAt vars (t : Int))
  else []

/-- Errors: `keyError` is a Python `KeyError` (cache lookup at a missing
time index), `fatal` is `Logger.error` (which aborts), `nameError` is a
Python `NameError` (use of an unbound name). -/
inductive Err where
  | keyError
  | fatal : String → Err
  | nameError
deriving DecidableEq, Repr

deriving instance DecidableEq for Except

/-- The vocabulary and horizon with which `_init_at_time` was last called,
together with whether the strategy was non-forward; this is the state the
`at_time`/`at_ptime` lookups run against. -/
structure TimeCtx where
  vars : List String
  mt : Nat
  previous : Bool

/-- `BMC.at_time(formula, t)` (bmc.py lines 172-173): substitute through the
forward map stored at key `t`; `none` models the `KeyError` raised when `t`
is outside the cache. -/
def atTime (vars : List String) (mt : Nat) (f : Formula) (t : Int) : Option Formula :=
  ((initAtTimeF vars mt).lookup t).map fun m => substF m f

/-- `BMC.at_ptime(formula, t)` (bmc.py lines 175-176): substitute through the
backward map stored at key `t`. -/
def atPtime (vars : List String) (mt : Nat) (previous : Bool) (f : Formula) (t : Int) :
    Option Formula :=
  ((initAtTimeB vars mt previous).lookup t).map fun m => substF m f

/-- `at_time` in the error monad used by the search-loop embeddings. -/
def atTimeE (ctx : TimeCtx) (f : Formula) (t : Int) : Except Err Formula :=
  match (initAtTimeF ctx.vars ctx.mt).lookup t with
  | some m => .ok (substF m f)
  | none => .error .keyError

/-- `at_ptime` in the error monad used by the search-loop embeddings. -/
def atPtimeE (ctx : TimeCtx) (f : Formula) (t : Int) : Except Err Formula :=
  match (initAtTimeB ctx.vars ctx.mt ctx.previous).lookup t with
  | some m => .ok (substF m f)
  | none => .error .keyError

/-! ### Transition systems and configuration -/

/-- A hierarchical transition system, flattened.  Modelled from the spec for
the parts living in cosa/core/transition_system.py (not in the given
sources): `single_init`, `single_trans`, `single_invar` yield one flattened
triple, here stored directly as the `init`, `trans`, `invar` fields; `vars`,
`stateVars`, `inputs`, `outputs` are the variable-name unions; `assumptions`
is the slot the lemma pipeline writes. -/
structure HTS where
  vars : List String
  stateVars : List String
  inputs : List String
  outputs : List String
  init : Formula
  trans : Formula
  invar : Formula
  assumptions : Formula
deriving DecidableEq, Repr

/-- The four search strategies (bmc.py lines 33-36). -/
inductive Strategy where
  | FWD
  | BWD
  | ZZ
  | NU
deriving DecidableEq, Repr

/-- The relevant fields of `BMCConfig` plus the `BMC.assert_property`
attribute (set to `False` in `BMC.__init__` and never changed in the given
sources). -/
structure Cfg where
  incremental : Bool
  strategy : Strategy
  skipSolving : Bool
  simplifyOpt : Bool
  prove : Bool
  assertProp : Bool
deriving DecidableEq, Repr

/-- Event counters and the assertion log of one underlying SMT solver:
`pushes`/`pops` count the `_push`/`_pop` events performed, `calls` counts the
check-sat queries answered by the engine, `asserts` is the current assertion
list. -/
structure SolverSt where
  pushes : Nat
  pops : Nat
  calls : Nat
  asserts : List Formula
deriving DecidableEq, Repr

/-- The two solver instances owned by a `BMC` object: `main` is
`self.solver`, `ind` is the induction solver `self.solver_2`. -/
structure BmcSt where
  main : SolverSt
  ind : SolverSt
deriving DecidableEq, Repr

/-- A fresh solver pair, as at the start of a search call. -/
def bmc0 : BmcSt := ⟨⟨0, 0, 0, []⟩, ⟨0, 0, 0, []⟩⟩

/-- The external SMT engine, treated as an oracle: `sat i` is the answer to
the i-th check-sat query of a solver, `val i v` is the value the model of
query `i` gives to symbol `v`, and `assign i` is the full assignment list of
that model (used when the Python code iterates a model object). -/
structure Oracle where
  sat : Nat → Bool
  val : Nat → VName → Formula
  assign : Nat → List (VName × Formula)

/-- Everything a `BMC` method reads from `self` except the solver state:
the configuration, the engines behind the two solvers, and `self.hts`. -/
structure Env where
  cfg : Cfg
  orc : Oracle
  orc2 : Oracle
  selfHts : HTS

/-- Result of running an embedded method: either a Python return value
together with the final solver state, or an abort (fatal log, KeyError,
NameError) together with the solver state at the point of the abort. -/
inductive ExecRes (α : Type) where
  | ok : α → BmcSt → ExecRes α
  | err : Err → BmcSt → ExecRes α
deriving DecidableEq, Repr

/-- A Python "model" value as returned by the search loops: `none` is
`None`, `tok i` is an opaque solver model object (obtained after check-sat
query `i`), `dict` is a dictionary model, `tru` is the literal `True`
returned on induction success. -/
inductive PyModel where
  | none
  | tok : Nat → PyModel
  | dict : List (VName × Formula) → PyModel
  | tru
deriving DecidableEq, Repr

/-- `BMC._push(solver)` on the main solver. -/
def pushMain (st : BmcSt) : BmcSt :=
  { st with main := { st.main with pushes := st.main.pushes + 1 } }

/-- `BMC._pop(solver)` on the main solver. -/
def popMain (st : BmcSt) : BmcSt :=
  { st with main := { st.main with pops := st.main.pops + 1 } }

/-- `BMC._add_assertion(solver, f)` on the main solver. -/
def assertMain (st : BmcSt) (f : Formula) : BmcSt :=
  { st with main := { st.main with asserts := st.main.asserts ++ [f] } }

/-- `BMC._reset_assertions(solver)` on the main solver. -/
def resetMain (st : BmcSt) : BmcSt :=
  { st with main := { st.main with asserts := [] } }

/-- `BMC._solve(solver)` on the main solver: with `skip_solving` the engine
is not consulted and the result is `None` (falsy, here `false`); otherwise
the oracle answers the query. -/
def solveMain (env : Env) (st : BmcSt) : Bool × BmcSt :=
  if env.cfg.skipSolving then (false, st)
  else (env.orc.sat st.main.calls,
        { st with main := { st.main with calls := st.main.calls + 1 } })

/-- `BMC._push(solver)` on the induction solver. -/
def pushInd (st : BmcSt) : BmcSt :=
  { st with ind := { st.ind with pushes := st.ind.pushes + 1 } }

/-- `BMC._pop(solver)` on the induction solver. -/
def popInd (st : BmcSt) : BmcSt :=
  { st with ind := { st.ind with pops := st.ind.pops + 1 } }

/-- `BMC._add_assertion(solver_2, f)`. -/
def assertInd (st : BmcSt) (f : Formula) : BmcSt :=
  { st with ind := { st.ind with asserts := st.ind.asserts ++ [f] } }

/-- `BMC._reset_assertions(solver_2)`. -/
def resetInd (st : BmcSt) : BmcSt :=
  { st with ind := { st.ind with asserts := [] } }

/-- `BMC._solve(solver_2)`. -/
def solveInd (env : Env) (st : BmcSt) : Bool × BmcSt :=
  if env.cfg.skipSolving then (false, st)
  else (env.orc2.sat st.ind.calls,
        { st with ind := { st.ind with calls := st.ind.calls + 1 } })

/-- The opaque model token for `solver.solver.get_model()` right after a
successful check-sat on the main solver. -/
def tokMain (st : BmcSt) : PyModel := .tok (st.main.calls - 1)

/-! ### Unroller and simple path (bmc.py lines 178-216) -/

/-- The list of timed conjuncts the `while` loop of `BMC.unroll` appends:
for each of `n` steps starting at `t`, `time(trans, t)` then
`time(invar, to_t)` with `to_t = t+1` forward and `to_t = t` backward. -/
def unrollList (tf : Formula → Int → Except Err Formula) (trans invar : Formula)
    (fwd : Bool) : Int → Nat → Except Err (List Formula)
  | _, 0 => .ok []
  | t, n + 1 =>
    match tf trans t with
    | .error e => .error e
    | .ok f1 =>
      match tf invar (if fwd then t + 1 else t) with
      | .error e => .error e
      | .ok f2 =>
        match unrollList tf trans invar fwd (t + 1) n with
        | .error e => .error e
        | .ok rest => .ok (f1 :: f2 :: rest)

/-- `BMC.unroll(trans, invar, k_end, k_start)` (bmc.py lines 178-194): the
direction is fixed by the original comparison `k_start <= k_end`, the window
is then normalised to `[min, max)`, and the collected timed conjuncts are
conjoined with `And`. -/
def unroll (ctx : TimeCtx) (trans invar : Formula) (kEnd : Int) (kStart : Int := 0) :
    Except Err Formula :=
  let fwd := decide (kStart ≤ kEnd)
  let tf : Formula → Int → Except Err Formula :=
    fun f t => if fwd then atTimeE ctx f t else atPtimeE ctx f t
  let a := min kStart kEnd
  let b := max kStart kEnd
  match unrollList tf trans invar fwd a (b - a).toNat with
  | .error e => .error e
  | .ok fs => .ok (andList fs)

/-- The state inequality `not_eq_states` of `BMC.simple_path`: the
disjunction over the paired variables of the negated equalities. -/
def notEqStates (vars1 vars2 : List VName) : Formula :=
  orList ((vars1.zip vars2).map fun p => .not (.eq (.var p.1) (.var p.2)))

/-- `BMC.simple_path(vars, k_end, k_start)` (bmc.py lines 196-216): TRUE when
`k_end = k_start`, else the conjunction over `t` in `[k_start, k_end)` of the
inequality between the state at `k_end` and the state at `t`. -/
def simplePath (vs : List String) (kEnd : Int) (kStart : Int := 0) : Formula :=
  if kEnd == kStart then .tru
  else
    let endVars := vs.map fun v => VName.timed v kEnd
    andList (((List.range (kEnd - kStart).toNat).map fun i =>
      notEqStates endVars (vs.map fun v => VName.timed v (kStart + (i : Int)))))

/-! ### Lemma pipeline (bmc.py lines 471-565) -/

/-- `BMC._check_lemma(hts, lemma)` (bmc.py lines 471-524): the init check
asserts `at_time(¬(init ∧ invar → L), 0)` and the step check asserts
`at_time(trans ∧ invar ∧ invar' ∧ L ∧ ¬L', 0)`; the lemma passes when both
queries are unsatisfiable. -/
def checkLemma (env : Env) (ctx : TimeCtx) (hts : HTS) (lem : Formula) (st0 : BmcSt) :
    ExecRes Bool :=
  let st := resetMain st0
  let trans := andList [hts.trans, hts.invar, toNext hts.invar]
  let init := Formula.and hts.init hts.invar
  match atTimeE ctx (.not (.implies init lem)) 0 with
  | .error e => .err e st
  | .ok c1 =>
    let st := assertMain st c1
    match solveMain env st with
    | (true, st2) => .ok false st2
    | (false, st2) =>
      let st := resetMain st2
      match atTimeE ctx (andList [trans, lem, .not (toNext lem)]) 0 with
      | .error e => .err e st
      | .ok c2 =>
        let st := assertMain st c2
        match solveMain env st with
        | (true, st3) => .ok false st3
        | (false, st3) => .ok true st3

/-- `BMC._check_lemmas(prop, lemmas)` (bmc.py lines 526-536): asserts
`¬(⋀ lemmas → prop)` (untimed) and reports whether it is unsatisfiable. -/
def checkLemmas (env : Env) (prop : Formula) (lemmas : List Formula) (st0 : BmcSt) :
    Bool × BmcSt :=
  let st := resetMain st0
  let st := assertMain st (.not (.implies (andList lemmas) prop))
  let r := solveMain env st
  (!r.1, r.2)

/-- The `for lemma in lemmas` loop of `BMC.add_lemmas` (bmc.py lines
546-558), with the holding set threaded through. -/
def addLemmasLoop (env : Env) (ctx : TimeCtx) (hts : HTS) (prop : Formula) :
    List Formula → List Formula → BmcSt → ExecRes (HTS × Bool)
  | [], holding, st => .ok ({ hts with assumptions := andList holding }, false) st
  | lem :: rest, holding, st =>
    match checkLemma env ctx hts lem st with
    | .err e st1 => .err e st1
    | .ok true st1 =>
      let holding1 := holding ++ [lem]
      match checkLemmas env prop holding1 st1 with
      | (true, st2) => .ok (hts, true) st2
      | (false, st2) => addLemmasLoop env ctx hts prop rest holding1 st2
    | .ok false st1 => addLemmasLoop env ctx hts prop rest holding st1

/-- `BMC.add_lemmas(hts, prop, lemmas)` (bmc.py lines 538-565): for an empty
list return `(hts, False)` untouched; otherwise reset and run the loop. -/
def addLemmas (env : Env) (ctx : TimeCtx) (hts : HTS) (prop : Formula)
    (lemmas : List Formula) (st0 : BmcSt) : ExecRes (HTS × Bool) :=
  if lemmas.length == 0 then .ok (hts, false) st0
  else addLemmasLoop env ctx hts prop lemmas [] (resetMain st0)

/-- Outcome of the lemma pipeline as the spec describes it: either the
holding lemmas came to imply the property, or the loop completed with a final
holding set. -/
inductive LemmaOutcome where
  | implied : LemmaOutcome
  | holding : List Formula → LemmaOutcome
deriving DecidableEq, Repr

/-- The claim C7 description of the lemma pipeline, written from the spec
words: process candidates in order; a lemma failing either check is dropped
and the loop proceeds; a lemma passing both is appended to the holding set
and the pipeline then checks whether the holding conjunction implies the
property, returning "implied" immediately if so; a completed loop yields the
holding set. -/
def lemmaPipelineSpec (checkL : Formula → BmcSt → ExecRes Bool)
    (checkImp : List Formula → BmcSt → Bool × BmcSt) :
    List Formula → List Formula → BmcSt → ExecRes LemmaOutcome
  | [], holding, st => .ok (.holding holding) st
  | lem :: rest, holding, st =>
    match checkL lem st with
    | .err e st1 => .err e st1
    | .ok false st1 => lemmaPipelineSpec checkL checkImp rest holding st1
    | .ok true st1 =>
      let holding1 := holding ++ [lem]
      match checkImp holding1 st1 with
      | (true, st2) => .ok .implied st2
      | (false, st2) => lemmaPipelineSpec checkL checkImp rest holding1 st2

/-! ### Incremental forward search (bmc.py lines 567-668) -/

/-- Outcome of one iteration of a search loop: an early `return (t, model)`
or continuation with the loop-carried data. -/
inductive LoopOut (α : Type) where
  | ret : Int × PyModel → LoopOut α
  | next : α → LoopOut α
deriving DecidableEq, Repr

/-- The effective `k_min` used by the `solve_inc_fwd` loop: the source sets
`k_min = 1` whenever the property contains a next variable (bmc.py line
602). -/
def solveIncFwdKmin (prop : Formula) (kMin : Nat) : Nat :=
  if hasNext prop then 1 else kMin

/-- The time index at which the negated property is added in
`solve_inc_fwd`: `t-1` for a next-variable property, else `t` (bmc.py line
609). -/
def solveIncFwdTprop (nextProp : Bool) (t : Int) : Int :=
  if nextProp then t - 1 else t

/-- Tail of a `solve_inc_fwd` iteration (bmc.py lines 660-663): the
`assert_property` block, then continue with the accumulated property. -/
def fwdStepFinal (env : Env) (ctx : TimeCtx) (prop propt : Formula) (t : Int)
    (st : BmcSt) : ExecRes (LoopOut Formula) :=
  if env.cfg.assertProp then
    match unroll ctx .tru prop t (t - 1) with
    | .error e => .err e st
    | .ok propT => .ok (.next propt) (assertMain st propT)
  else .ok (.next propt) st

/-- End of the prove-mode block of a `solve_inc_fwd` iteration (bmc.py lines
657-658): pop the induction solver and assert the property at time `t`. -/
def fwdStepEnd (env : Env) (ctx : TimeCtx) (prop propt : Formula) (t : Int)
    (st : BmcSt) : ExecRes (LoopOut Formula) :=
  let st := popInd st
  match atTimeE ctx prop t with
  | .error e => .err e st
  | .ok pt => fwdStepFinal env ctx prop propt t (assertInd st pt)

/-- Prove-mode block of a `solve_inc_fwd` iteration (bmc.py lines 640-658):
feed the unrolled step and the simple-path constraint to the induction
solver, push, assert the negated property at `t`, query when `t ≥ k_min`
(an unsatisfiable query means induction holds and returns `(t, True)`),
else pop and record the property at `t`. -/
def fwdStepProve (env : Env) (ctx : TimeCtx) (prop propt transT : Formula)
    (kMin : Nat) (t : Int) (st : BmcSt) : ExecRes (LoopOut Formula) :=
  let st := assertInd st transT
  let st := assertInd st (simplePath env.selfHts.vars t 0)
  let st := pushInd st
  match atTimeE ctx (.not prop) t with
  | .error e => .err e st
  | .ok np =>
    let st := assertInd st np
    if t ≥ (kMin : Int) then
      match solveInd env st with
      | (true, st2) => fwdStepEnd env ctx prop propt t st2
      | (false, st2) => .ok (.ret (t, .tru)) st2
    else fwdStepEnd env ctx prop propt t st

/-- Rest of a `solve_inc_fwd` iteration after the main-solver query (bmc.py
lines 635-663): pop, assert the unrolled step `unroll(trans, invar, t+1, t)`,
then the prove-mode block and the `assert_property` block. -/
def fwdStepRest (env : Env) (ctx : TimeCtx) (trans invar prop propt : Formula)
    (kMin : Nat) (t : Int) (st : BmcSt) : ExecRes (LoopOut Formula) :=
  let st := popMain st
  match unroll ctx trans invar (t + 1) t with
  | .error e => .err e st
  | .ok transT =>
    let st := assertMain st transT
    if env.cfg.prove then fwdStepProve env ctx prop propt transT kMin t st
    else fwdStepFinal env ctx prop propt t st

/-- The property-accumulator update of a `solve_inc_fwd` iteration (bmc.py
lines 608-613): with a positive `k_min`, extend the accumulator by the
negated property at the (possibly shifted) index unless the guard skips the
very first next-property step; with `k_min = 0`, replace the accumulator by
the current-step formula. -/
def fwdPropt (ctx : TimeCtx) (prop propt : Formula) (nextProp : Bool)
    (kMin : Nat) (t : Int) : Except Err Formula :=
  if kMin > 0 then
    if (!nextProp) || (nextProp && decide (t > 0)) then
      match atTimeE ctx (.not prop) (solveIncFwdTprop nextProp t) with
      | .error e => .error e
      | .ok g => .ok (.or propt g)
    else .ok propt
  else
    match atTimeE ctx (.not prop) t with
    | .error e => .error e
    | .ok g => .ok g

/-- One iteration of the `solve_inc_fwd` loop (bmc.py lines 605-665): push,
extend or replace the property accumulator, assert it, query the main solver
when `t ≥ k_min` (a satisfiable query returns `(t, model)`), then the rest of
the iteration. -/
def fwdStep (env : Env) (ctx : TimeCtx) (trans invar prop : Formula)
    (nextProp : Bool) (kMin : Nat) (t : Int) (propt : Formula) (st : BmcSt) :
    ExecRes (LoopOut Formula) :=
  let st := pushMain st
  match fwdPropt ctx prop propt nextProp kMin t with
  | .error e => .err e st
  | .ok propt1 =>
    let st := assertMain st propt1
    if t ≥ (kMin : Int) then
      match solveMain env st with
      | (true, st2) => .ok (.ret (t, tokMain st2)) st2
      | (false, st2) => fwdStepRest env ctx trans invar prop propt1 kMin t st2
    else fwdStepRest env ctx trans invar prop propt1 kMin t st

/-- The `while t < k+1` loop of `solve_inc_fwd`, by remaining fuel;
exhaustion returns `(-1, None)` (bmc.py line 668). -/
def fwdLoop (env : Env) (ctx : TimeCtx) (trans invar prop : Formula)
    (nextProp : Bool) (kMin : Nat) : Nat → Int → Formula → BmcSt →
    ExecRes (Int × PyModel)
  | 0, _, _, st => .ok (-1, .none) st
  | n + 1, t, propt, st =>
    match fwdStep env ctx trans invar prop nextProp kMin t propt st with
    | .err e st1 => .err e st1
    | .ok (.ret r) st1 => .ok r st1
    | .ok (.next propt1) st1 =>
      fwdLoop env ctx trans invar prop nextProp kMin n (t + 1) propt1 st1

/-- `BMC.solve_inc_fwd(hts, prop, k, k_min)` (bmc.py lines 567-668). -/
def solveIncFwd (env : Env) (ctx : TimeCtx) (hts : HTS) (prop : Formula)
    (k kMin0 : Nat) (st0 : BmcSt) : ExecRes (Int × PyModel) :=
  let st := resetMain st0
  let st := if env.cfg.prove then resetInd st else st
  let init := if env.cfg.simplifyOpt then simplifyF hts.init else hts.init
  let trans := if env.cfg.simplifyOpt then simplifyF hts.trans else hts.trans
  let invar := if env.cfg.simplifyOpt then simplifyF hts.invar else hts.invar
  match atTimeE ctx (.and init invar) 0 with
  | .error e => .err e st
  | .ok f0 =>
    let st := assertMain st f0
    let stE : Except Err BmcSt :=
      if env.cfg.prove then
        match atTimeE ctx invar 0 with
        | .error e => .error e
        | .ok g => .ok (assertInd st g)
      else .ok st
    match stE with
    | .error e => .err e st
    | .ok st1 =>
      let nextProp := hasNext prop
      if nextProp && decide (k < 1) then
        .err (.fatal "Invariant checking with next variables requires at least k=1") st1
      else
        fwdLoop env ctx trans invar prop nextProp (solveIncFwdKmin prop kMin0)
          (k + 1) 0 .fls st1

/-! ### Incremental backward search (bmc.py lines 670-716) -/

/-- One iteration of the `solve_inc_bwd` loop (bmc.py lines 685-713): push,
assert `at_ptime(init, t-1)`, query (a satisfiable query returns
`(t, model)`), pop, assert the backward step `unroll(trans, invar, t, t+1)`,
then the `assert_property` block. -/
def bwdStep (env : Env) (ctx : TimeCtx) (init trans invar prop : Formula)
    (t : Int) (st : BmcSt) : ExecRes (LoopOut Unit) :=
  let st := pushMain st
  match atPtimeE ctx init (t - 1) with
  | .error e => .err e st
  | .ok pinit =>
    let st := assertMain st pinit
    match solveMain env st with
    | (true, st2) => .ok (.ret (t, tokMain st2)) st2
    | (false, st2) =>
      let st := popMain st2
      match unroll ctx trans invar t (t + 1) with
      | .error e => .err e st
      | .ok transT =>
        let st := assertMain st transT
        if env.cfg.assertProp && decide (t > 0) then
          match unroll ctx .tru prop (t - 1) t with
          | .error e => .err e st
          | .ok propT => .ok (.next ()) (assertMain st propT)
        else .ok (.next ()) st

/-- The `while t < k+1` loop of `solve_inc_bwd`. -/
def bwdLoop (env : Env) (ctx : TimeCtx) (init trans invar prop : Formula) :
    Nat → Int → BmcSt → ExecRes (Int × PyModel)
  | 0, _, st => .ok (-1, .none) st
  | n + 1, t, st =>
    match bwdStep env ctx init trans invar prop t st with
    | .err e st1 => .err e st1
    | .ok (.ret r) st1 => .ok r st1
    | .ok (.next _) st1 => bwdLoop env ctx init trans invar prop n (t + 1) st1

/-- `BMC.solve_inc_bwd(hts, prop, k)` (bmc.py lines 670-716): reset, fatal
error on a next-variable property, assert `at_ptime(¬P ∧ invar, -1)` once,
then the loop. -/
def solveIncBwd (env : Env) (ctx : TimeCtx) (hts : HTS) (prop : Formula)
    (k : Nat) (st0 : BmcSt) : ExecRes (Int × PyModel) :=
  let st := resetMain st0
  if hasNext prop then
    .err (.fatal "Invariant checking with next variables only supports FWD strategy") st
  else
    match atPtimeE ctx (.and (.not prop) hts.invar) (-1) with
    | .error e => .err e st
    | .ok f =>
      bwdLoop env ctx hts.init hts.trans hts.invar prop (k + 1) 0 (assertMain st f)

/-! ### Incremental zig-zag search (bmc.py lines 718-773) -/

/-- The list of pivot equalities of a `solve_inc_zz` iteration: for each
system variable `v`, `EqualsOrIff(at_time(v, tf), at_ptime(v, tb))`. -/
def zzEqList (ctx : TimeCtx) (vs : List String) (tf tb : Int) :
    Except Err (List Formula) :=
  match vs with
  | [] => .ok []
  | v :: rest =>
    match atTimeE ctx (.var (.base v)) tf with
    | .error e => .error e
    | .ok a =>
      match atPtimeE ctx (.var (.base v)) tb with
      | .error e => .error e
      | .ok b =>
        match zzEqList ctx rest tf tb with
        | .error e => .error e
        | .ok fs => .ok (.eq a b :: fs)

/-- One iteration of the `solve_inc_zz` loop (bmc.py lines 737-770): with
`th = t div 2`, push, assert the pivot equalities (forward frame `th` for
even `t`, `th+1` for odd `t`, against backward frame `th-1`), query (a
satisfiable query returns `(t, model)`), pop, then extend the even/odd
frontier by the corresponding unroll. -/
def zzStep (env : Env) (ctx : TimeCtx) (vars : List String)
    (trans invar : Formula) (t : Int) (st : BmcSt) : ExecRes (LoopOut Unit) :=
  let st := pushMain st
  let even := t % 2 == 0
  let th := t / 2
  match zzEqList ctx vars (if even then th else th + 1) (th - 1) with
  | .error e => .err e st
  | .ok eqs =>
    let st := assertMain st (andList eqs)
    match solveMain env st with
    | (true, st2) => .ok (.ret (t, tokMain st2)) st2
    | (false, st2) =>
      let st := popMain st2
      match (if even then unroll ctx trans invar (th + 1) th
             else unroll ctx trans invar th (th + 1)) with
      | .error e => .err e st
      | .ok transT => .ok (.next ()) (assertMain st transT)

/-- The `while t < k+1` loop of `solve_inc_zz`. -/
def zzLoop (env : Env) (ctx : TimeCtx) (vars : List String)
    (trans invar : Formula) : Nat → Int → BmcSt → ExecRes (Int × PyModel)
  | 0, _, st => .ok (-1, .none) st
  | n + 1, t, st =>
    match zzStep env ctx vars trans invar t st with
    | .err e st1 => .err e st1
    | .ok (.ret r) st1 => .ok r st1
    | .ok (.next _) st1 => zzLoop env ctx vars trans invar n (t + 1) st1

/-- `BMC.solve_inc_zz(hts, prop, k)` (bmc.py lines 718-773): reset, fatal
error on a next-variable property, assert `at_time(init ∧ invar, 0)` and
`at_ptime(¬P ∧ invar, -1)`, then the loop. -/
def solveIncZz (env : Env) (ctx : TimeCtx) (hts : HTS) (prop : Formula)
    (k : Nat) (st0 : BmcSt) : ExecRes (Int × PyModel) :=
  let st := resetMain st0
  if hasNext prop then
    .err (.fatal "Invariant checking with next variables only supports FWD strategy") st
  else
    match atTimeE ctx (.and hts.init hts.invar) 0 with
    | .error e => .err e st
    | .ok initT =>
      let st := assertMain st initT
      match atPtimeE ctx (.and (.not prop) hts.invar) (-1) with
      | .error e => .err e st
      | .ok propT =>
        zzLoop env ctx hts.vars hts.trans hts.invar (k + 1) 0 (assertMain st propT)

/-! ### Non-incremental forward search (bmc.py lines 429-469) -/

/-- One iteration of the `solve_fwd` loop (bmc.py lines 440-466): reset,
assert `at_time(init ∧ invar, 0)`, the unroll up to `t` and `at_time(¬P, t)`,
then query; a satisfiable query returns `(t, model)`. -/
def solveFwdStep (env : Env) (ctx : TimeCtx) (init trans invar prop : Formula)
    (t : Int) (st : BmcSt) : ExecRes (LoopOut Unit) :=
  let st := resetMain st
  match atTimeE ctx (.and init invar) 0 with
  | .error e => .err e st
  | .ok f0 =>
    let st := assertMain st f0
    match unroll ctx trans invar t 0 with
    | .error e => .err e st
    | .ok transT =>
      let st := assertMain st transT
      match atTimeE ctx (.not prop) t with
      | .error e => .err e st
      | .ok propt =>
        let st := assertMain st propt
        match solveMain env st with
        | (true, st2) => .ok (.ret (t, tokMain st2)) st2
        | (false, st2) => .ok (.next ()) st2

/-- The `while t < k+1` loop of `solve_fwd`. -/
def solveFwdLoop (env : Env) (ctx : TimeCtx) (init trans invar prop : Formula) :
    Nat → Int → BmcSt → ExecRes (Int × PyModel)
  | 0, _, st => .ok (-1, .none) st
  | n + 1, t, st =>
    match solveFwdStep env ctx init trans invar prop t st with
    | .err e st1 => .err e st1
    | .ok (.ret r) st1 => .ok r st1
    | .ok (.next _) st1 => solveFwdLoop env ctx init trans invar prop n (t + 1) st1

/-- `BMC.solve_fwd(hts, prop, k, shortest)` (bmc.py lines 429-469): the loop
runs from `t = 0` (or a single `t = k` when not shortest) to `k`. -/
def solveFwd (env : Env) (ctx : TimeCtx) (hts : HTS) (prop : Formula)
    (k : Nat) (shortest : Bool) (st0 : BmcSt) : ExecRes (Int × PyModel) :=
  if shortest then
    solveFwdLoop env ctx hts.init hts.trans hts.invar prop (k + 1) 0 st0
  else
    solveFwdLoop env ctx hts.init hts.trans hts.invar prop 1 (k : Int) st0

/-! ### Dispatch (bmc.py lines 402-427) -/

/-- `BMC.solve_inc(hts, prop, k, k_min)` (bmc.py lines 415-427): dispatch on
the configured strategy; an unknown strategy is a fatal configuration
error. -/
def solveIncDispatch (env : Env) (ctx : TimeCtx) (hts : HTS) (prop : Formula)
    (k kMin : Nat) (st : BmcSt) : ExecRes (Int × PyModel) :=
  match env.cfg.strategy with
  | .FWD => solveIncFwd env ctx hts prop k kMin st
  | .BWD => solveIncBwd env ctx hts prop k st
  | .ZZ => solveIncZz env ctx hts prop k st
  | .NU => .err (.fatal "Invalid configuration strategy") st

/-- `BMC.solve(hts, prop, k, k_min, lemmas)` (bmc.py lines 402-413): run the
lemma pipeline when lemmas are given (returning `(0, True)` if they imply the
property), then the incremental dispatch or the non-incremental forward
search. -/
def solveDispatch (env : Env) (ctx : TimeCtx) (hts : HTS) (prop : Formula)
    (k kMin : Nat) (lemmas : Option (List Formula)) (st0 : BmcSt) :
    ExecRes (Int × PyModel) :=
  match lemmas with
  | some ls =>
    match addLemmas env ctx hts prop ls st0 with
    | .err e st1 => .err e st1
    | .ok (hts1, res) st1 =>
      if res then .ok (0, .tru) st1
      else if env.cfg.incremental then solveIncDispatch env ctx hts1 prop k kMin st1
      else solveFwd env ctx hts1 prop k true st1
  | none =>
    if env.cfg.incremental then solveIncDispatch env ctx hts prop k kMin st0
    else solveFwd env ctx hts prop k true st0

/-! ### Model remapping (bmc.py lines 788-802 and 911-930) -/

/-- Subscripting a Python model value `model[v]`: a solver model object
evaluates `v` via the oracle; a dictionary looks `v` up (KeyError when
absent); `None` and `True` are not subscriptable. -/
def modelLookup (env : Env) (m : PyModel) (v : VName) : Except Err Formula :=
  match m with
  | .tok n => .ok (env.orc.val n v)
  | .dict d =>
    match d.lookup v with
    | some f => .ok f
    | Option.none => .error .keyError
  | .none => .error .keyError
  | .tru => .error .keyError

/-- Monadic map over a list in the error monad. -/
def mapME (f : α → Except Err β) : List α → Except Err (List β)
  | [] => .ok []
  | a :: rest =>
    match f a with
    | .error e => .error e
    | .ok b =>
      match mapME f rest with
      | .error e => .error e
      | .ok bs => .ok (b :: bs)

/-- Python dictionary assignment `d[key] = v` on an association list. -/
def insertA (l : List (VName × Formula)) (key : VName) (v : Formula) :
    List (VName × Formula) :=
  if l.any fun p => p.1 == key then
    l.map fun p => if p.1 == key then (key, v) else p
  else l ++ [(key, v)]

/-- `BMC._remap_model_bwd(vars, model, k)` (bmc.py lines 914-921): for every
variable `v` and `0 ≤ t ≤ k`, map `v@t` to `model[v#(k-t)]`. -/
def remapModelBwd (env : Env) (vars : List String) (m : PyModel) (k : Int) :
    Except Err PyModel :=
  match mapME (fun p =>
      match modelLookup env m (VName.ptimed p.1 (k - (p.2 : Int))) with
      | .error e => .error e
      | .ok f => .ok (VName.timed p.1 (p.2 : Int), f))
    (vars.flatMap fun v => (List.range (k + 1).toNat).map fun i => (v, i)) with
  | .error e => .error e
  | .ok entries => .ok (.dict entries)

/-- `BMC._remap_model_zz(vars, model, k)` (bmc.py lines 923-930): start from
a dictionary copy of the model and overwrite `v@t` with `model[v#(k-t)]` for
`t` in `[k div 2 + 1, k]`. -/
def remapModelZz (env : Env) (vars : List String) (m : PyModel) (k : Int) :
    Except Err PyModel :=
  let baseE : Except Err (List (VName × Formula)) :=
    match m with
    | .tok n => .ok (env.orc.assign n)
    | .dict d => .ok d
    | _ => .error .keyError
  match baseE with
  | .error e => .error e
  | .ok base =>
    match mapME (fun p =>
        match modelLookup env m (VName.ptimed p.1 (k - (p.2 : Int))) with
        | .error e => .error e
        | .ok f => .ok (VName.timed p.1 (p.2 : Int), f))
      (vars.flatMap fun v =>
        (List.range (k - k / 2).toNat).map fun i => (v, (k / 2 + 1 + (i : Int)))) with
    | .error e => .error e
    | .ok entries =>
      .ok (.dict (entries.foldl (fun acc p => insertA acc p.1 p.2) base))

/-- `BMC._remap_model(vars, model, k)` (bmc.py lines 788-802): `None` maps to
itself, otherwise dispatch on the strategy (`FWD`/`NU` are the identity). -/
def remapModel (env : Env) (vars : List String) (m : PyModel) (k : Int) :
    Except Err PyModel :=
  match m with
  | .none => .ok .none
  | _ =>
    match env.cfg.strategy with
    | .BWD => remapModelBwd env vars m k
    | .ZZ => remapModelZz env vars m k
    | .FWD => .ok m
    | .NU => .ok m

/-! ### No-unroll simulation (bmc.py lines 804-908) -/

/-- One iteration of the `for t in range(1, k+1)` loop of
`BMC.sim_no_unroll` (bmc.py lines 849-904): pin the previous frame as the
initial state (push in incremental mode), query (an unsatisfiable query is a
deadlock returning `(-1, full_model)`), read the frame-1 model, extend
`full_model` at time `t` and rebuild the pin; when a cover is given, also
assert the frame-1 values and the cover at time 1 and return
`(t, full_model)` if satisfiable; finally pop in incremental mode. -/
def simStep (env : Env) (inc allVars : Bool) (invar0 trans01 cover1 cover : Formula)
    (rv1 : List VName) (triples : List (VName × VName × String)) (t : Int)
    (init0 : Formula) (fullModel : List (VName × Formula)) (st0 : BmcSt) :
    ExecRes (LoopOut (Formula × List (VName × Formula))) :=
  let stf : BmcSt × Formula :=
    if inc then (pushMain st0, init0)
    else (assertMain (resetMain st0) trans01, .and init0 invar0)
  let st := assertMain stf.1 stf.2
  match solveMain env st with
  | (false, st2) => .ok (.ret (-1, .dict fullModel)) st2
  | (true, st) =>
    let initModel : PyModel :=
      if allVars then tokMain st
      else .dict (rv1.map fun v => (v, env.orc.val (st.main.calls - 1) v))
    match mapME (fun tr =>
        match modelLookup env initModel tr.2.1 with
        | .error e => .error e
        | .ok val => .ok (tr, val)) triples with
    | .error e => .err e st
    | .ok tvals =>
      let fullModel1 := tvals.foldl
        (fun acc p => insertA acc (VName.timed p.1.2.2 t) p.2) fullModel
      let init0list := tvals.map fun p => Formula.eq (.var p.1.1) p.2
      let init1list := tvals.map fun p => Formula.eq (.var p.1.2.1) p.2
      let init01 := andList init0list
      if cover == Formula.tru then
        let st := if inc then popMain st else st
        .ok (.next (init01, fullModel1)) st
      else
        let st := assertMain st (andList init1list)
        let st := assertMain st cover1
        match solveMain env st with
        | (true, st3) => .ok (.ret (t, .dict fullModel1)) st3
        | (false, st3) =>
          let st := if inc then popMain st3 else st3
          .ok (.next (init01, fullModel1)) st

/-- The `for t in range(1, k+1)` loop of `sim_no_unroll`; after a completed
loop the source returns `(t, full_model)` with `t` holding its last loop
value (bmc.py line 908). -/
def simLoop (env : Env) (inc allVars : Bool) (invar0 trans01 cover1 cover : Formula)
    (rv1 : List VName) (triples : List (VName × VName × String)) :
    Nat → Int → Formula → List (VName × Formula) → BmcSt → ExecRes (Int × PyModel)
  | 0, t, _, fullModel, st => .ok (t - 1, .dict fullModel) st
  | n + 1, t, init0, fullModel, st =>
    match simStep env inc allVars invar0 trans01 cover1 cover rv1 triples t
        init0 fullModel st with
    | .err e st1 => .err e st1
    | .ok (.ret r) st1 => .ok r st1
    | .ok (.next a) st1 =>
      simLoop env inc allVars invar0 trans01 cover1 cover rv1 triples n (t + 1)
        a.1 a.2 st1

/-- `BMC.sim_no_unroll(hts, cover, k, all_vars, inc)` (bmc.py lines 804-908):
pick an initial state satisfying `at_time(init ∧ invar, 0)` (an unsatisfiable
query returns `(0, None)`), freeze it, then step forward one transition at a
time.  With `k = 0` the final `return (t, full_model)` reads the loop
variable `t` of a loop that never ran, a Python `NameError`. -/
def simNoUnroll (env : Env) (ctx : TimeCtx) (hts : HTS) (cover : Formula)
    (k : Nat) (allVars inc : Bool) (st0 : BmcSt) : ExecRes (Int × PyModel) :=
  match atTimeE ctx hts.init 0 with
  | .error e => .err e st0
  | .ok init0 =>
  match atTimeE ctx hts.invar 0 with
  | .error e => .err e st0
  | .ok invar0 =>
  match unroll ctx hts.trans hts.invar 1 0 with
  | .error e => .err e st0
  | .ok trans01 =>
  match atTimeE ctx cover 1 with
  | .error e => .err e st0
  | .ok cover1 =>
    let relevantVars := if allVars then env.selfHts.vars
      else env.selfHts.stateVars ∪ env.selfHts.inputs ∪ env.selfHts.outputs
    let rv0 := relevantVars.map fun v => VName.timed v 0
    let rv1 := relevantVars.map fun v => VName.timed v 1
    let triples := relevantVars.map fun v => (VName.timed v 0, VName.timed v 1, v)
    let st := resetMain st0
    let st := assertMain st (.and init0 invar0)
    match solveMain env st with
    | (false, st2) => .ok (0, .none) st2
    | (true, st) =>
      let initVals := rv0.map fun v => (v, env.orc.val (st.main.calls - 1) v)
      let init0B := andList (initVals.map fun p => Formula.eq (.var p.1) p.2)
      let st := resetMain st
      let st := if inc then assertMain (assertMain st trans01) invar0 else st
      if k == 0 then .err .nameError st
      else simLoop env inc allVars invar0 trans01 cover1 cover rv1 triples k 1
        init0B initVals st

/-- The verification verdicts `VerificationStatus.{TRUE,FALSE,UNK}`. -/
inductive VStatus where
  | tru
  | fls
  | unk
deriving DecidableEq, Repr

/-- `BMC.simulate(prop, k)` (bmc.py lines 380-400): under strategy NU,
initialise the caches to horizon 1 and run `sim_no_unroll`; otherwise
initialise to horizon `k` and run `solve_fwd` (for a TRUE cover, with
incremental disabled) or the incremental dispatch on `¬prop`; then remap the
model and report an execution for `t > -1`, deadlock otherwise.  The trace
built by the external printer is opaque (`Unit`). -/
def simulate (env : Env) (prop : Formula) (k : Nat) (st0 : BmcSt) :
    ExecRes (VStatus × Option Unit) :=
  let hts := env.selfHts
  let res : ExecRes (Int × PyModel) :=
    if env.cfg.strategy == Strategy.NU then
      simNoUnroll env ⟨hts.vars, 1, env.cfg.strategy != Strategy.FWD⟩ hts prop k
        true true st0
    else
      let ctx : TimeCtx := ⟨hts.vars, k, env.cfg.strategy != Strategy.FWD⟩
      if prop == Formula.tru then solveFwd env ctx hts (.not prop) k false st0
      else solveDispatch env ctx hts (.not prop) k 0 none st0
  match res with
  | .err e st1 => .err e st1
  | .ok (t, model) st1 =>
    match remapModel env hts.vars model t with
    | .error e => .err e st1
    | .ok _ =>
      if decide (t > -1) then .ok (.tru, some ()) st1
      else .ok (.fls, Option.none) st1

/-! ### Equivalence miter and FSM check (bmc.py lines 296-377) -/

/-- The module separator of the front-end.  Modelled from the spec: `SEP`
comes from cosa/encoders/coreir.py, which is not part of the given sources;
its value is irrelevant to the claims. -/
def SEP : String := "."

/-- The prefix for the first system of the miter (bmc.py line 30). -/
def S1 : String := "sys1" ++ SEP

/-- The prefix for the second system of the miter (bmc.py line 31). -/
def S2 : String := "sys2" ++ SEP

/-- Prefixing of a variable name.  Modelled from the spec: `TS.get_prefix`
(not part of the given sources) builds "prefixed variable names S1·v". -/
def prefixName (p : String) : VName → VName
  | .base x => .base (p ++ x)
  | .prime x => .prime (p ++ x)
  | .prev x => .prev (p ++ x)
  | .timed x t => .timed (p ++ x) t
  | .ptimed x t => .ptimed (p ++ x) t

/-- The substitution maps `map1`/`map2` of `combined_system` (bmc.py lines
312-313), both built from `self.hts.vars`: each current and next flavor is
mapped to its prefixed counterpart. -/
def prefixMap (vs : List String) (p : String) : List (VName × VName) :=
  (vs.map fun v => (VName.base v, prefixName p (VName.base v))) ++
  (vs.map fun v => (VName.prime v, prefixName p (VName.prime v)))

/-- `BMC.combined_system(hts2, k, symbolic_init, inc)` (bmc.py lines
309-377): build the miter of `self.hts` and `hts2` with prefixed variables,
equated intersecting inputs, and a fresh Boolean `eq_S1_S2` iff-encoding
output equality (implied by shared-state equality under symbolic init);
initialise the caches over the miter vocabulary to horizon `k`; then search
with `solve` (followed by a model remap) or `solve_fwd`.  The flattening of
the three added TSes into one `init`/`trans`/`invar` triple is modelled from
the spec (`HTS.add_ts` and `single_*` are not part of the given sources):
each field is the conjunction of the corresponding TS fields in insertion
order. -/
def combinedSystem (env : Env) (hts2 : HTS) (k : Nat) (symbolicInit inc : Bool)
    (st0 : BmcSt) : ExecRes (HTS × Int × PyModel) :=
  let hts1 := env.selfHts
  let map1 := prefixMap hts1.vars S1
  let map2 := prefixMap hts1.vars S2
  let ts1Init := if symbolicInit then Formula.tru else substF map1 hts1.init
  let ts2Init := if symbolicInit then Formula.tru else substF map2 hts2.init
  let inputsI := hts1.inputs.filter fun v => hts2.inputs.contains v
  let outputsI := hts1.outputs.filter fun v => hts2.outputs.contains v
  let states := if symbolicInit then
      hts1.stateVars.filter fun v => hts2.stateVars.contains v
    else []
  let eqPair : String → Formula := fun i =>
    .eq (.var (.base (S1 ++ i))) (.var (.base (S2 ++ i)))
  let eqinputs := inputsI.foldl (fun acc i => Formula.and acc (eqPair i)) .tru
  let eqoutputs := outputsI.foldl (fun acc i => Formula.and acc (eqPair i)) .tru
  let eqstates := states.foldl (fun acc i => Formula.and acc (eqPair i)) .tru
  let miterOut : VName := .base "eq_S1_S2"
  let eqmiteroutputs :=
    if symbolicInit then Formula.iff (.var miterOut) (.implies eqstates eqoutputs)
    else Formula.iff (.var miterOut) eqoutputs
  let htseq : HTS := {
    vars := (hts1.vars.map (S1 ++ ·)) ++ (hts2.vars.map (S2 ++ ·)) ++ ["eq_S1_S2"],
    stateVars := (hts1.stateVars.map (S1 ++ ·)) ++ (hts2.stateVars.map (S2 ++ ·)),
    inputs := (hts1.inputs.map (S1 ++ ·)) ++ (hts2.inputs.map (S2 ++ ·)),
    outputs := (hts1.outputs.map (S1 ++ ·)) ++ (hts2.outputs.map (S2 ++ ·)),
    init := .and (.and ts1Init ts2Init) .tru,
    trans := .and (.and (substF map1 hts1.trans) (substF map2 hts2.trans)) .tru,
    invar := .and (.and (substF map1 hts1.invar) (substF map2 hts2.invar))
      (.and eqinputs eqmiteroutputs),
    assumptions := .tru }
  let ctx : TimeCtx := ⟨htseq.vars, k, env.cfg.strategy != Strategy.FWD⟩
  if inc then
    match solveDispatch env ctx htseq (.var miterOut) k 0 Option.none st0 with
    | .err e st1 => .err e st1
    | .ok (t, model) st1 =>
      match remapModel env htseq.vars model (k : Int) with
      | .error e => .err e st1
      | .ok model1 => .ok (htseq, t, model1) st1
  else
    match solveFwd env ctx htseq (.var miterOut) k false st0 with
    | .err e st1 => .err e st1
    | .ok (t, model) st1 => .ok (htseq, t, model) st1

/-- `BMC.fsm_check()` (bmc.py lines 296-306): run
`combined_system(self.hts, 1, True, False)`; the next statement
`self._init_at_time(htseq.vars, k)` reads the local name `k`, which is bound
nowhere in the function (nor globally), so Python raises `NameError` there
and the remaining statements are unreachable. -/
def fsmCheck (env : Env) (st0 : BmcSt) : ExecRes Unit :=
  match combinedSystem env env.selfHts 1 true false st0 with
  | .err e st1 => .err e st1
  | .ok _ st1 => .err .nameError st1

/-! ### SMT-LIB trace declared-symbols model (bmc.py lines 932-1003)

The trace-file side of `_push`/`_pop`/`_add_assertion` for a solver with a
configured trace file.  Python's `solver.smt2vars` is a mutable set object:
`_push` appends the object itself (a reference, not a copy) to
`solver.smt2vars_inc` (line 995), `_add_assertion` mutates the object in
place via `add` (line 976), and `_pop` rebinds `solver.smt2vars` to the
popped object (line 1002).  The heap of set objects is modelled explicitly:
`store` holds the contents of every set object ever created, `cur` is the
index of the object currently bound to `smt2vars`, and `stack` is
`smt2vars_inc` holding object indices. -/

/-- One line of the emitted SMT-LIB trace. -/
inductive LogLine where
  | pushL
  | popL
  | decl : VName → LogLine
  | assertL : Formula → LogLine
  | checkSat
  | commentL : String → LogLine
deriving DecidableEq, Repr

/-- Trace-file state of one solver. -/
structure TraceSt where
  cur : Nat
  stack : List Nat
  store : List (List VName)
  log : List LogLine
deriving DecidableEq, Repr

/-- Fresh trace state: one empty declared-symbols set object. -/
def traceInit : TraceSt := ⟨0, [], [[]], []⟩

/-- `BMC._push(solver)` trace side (bmc.py lines 991-996): append the
current set object (by reference) to `smt2vars_inc` and log `(push 1)`. -/
def tracePush (st : TraceSt) : TraceSt :=
  { st with stack := st.cur :: st.stack, log := st.log ++ [.pushL] }

/-- `BMC._pop(solver)` trace side (bmc.py lines 998-1003): rebind `smt2vars`
to the object popped from `smt2vars_inc` and log `(pop 1)`. -/
def tracePop (st : TraceSt) : TraceSt :=
  match st.stack with
  | [] => st
  | id :: rest => { st with cur := id, stack := rest, log := st.log ++ [.popL] }

/-- `BMC._add_assertion(solver, formula, comment)` trace side (bmc.py lines
951-988): emit `declare-fun` for each free variable not yet in the current
declared set, then add every free variable to that set (mutating the shared
object), then emit one `(assert ...)` per top-level conjunct (or one overall
when the formula is not a conjunction). -/
def traceAddAssertion (st : TraceSt) (comment : Option String) (f : Formula) :
    TraceSt :=
  let cmts := match comment with
    | some c => [LogLine.commentL c]
    | Option.none => []
  let fv := freeVars f
  let curSet := st.store.getD st.cur []
  let decls := (fv.filter fun v => !curSet.contains v).map LogLine.decl
  let newSet := fv.foldl (fun s v => if s.contains v then s else s ++ [v]) curSet
  let assertsL :=
    match f with
    | .and _ _ => (conjuncts f).map LogLine.assertL
    | _ => [LogLine.assertL f]
  { st with store := st.store.set st.cur newSet,
            log := st.log ++ cmts ++ decls ++ assertsL }

/-- `BMC._reset_assertions(solver)` trace side (bmc.py lines 1011-1020):
bind `smt2vars` to a fresh empty set object. -/
def traceReset (st : TraceSt) : TraceSt :=
  { st with cur := st.store.length, store := st.store ++ [[]] }

/-! ### Concrete fixtures and projections used by the claim statements -/

/-- Oracle whose engine always answers unsat. -/
def orcFalse : Oracle := ⟨fun _ => false, fun _ _ => .tru, fun _ => []⟩

/-- Oracle whose engine always answers sat. -/
def orcTrue : Oracle := ⟨fun _ => true, fun _ _ => .tru, fun _ => []⟩

/-- Default configuration as built by `BMCConfig.__init__` (incremental
forward, nothing optional enabled). -/
def cfgBase : Cfg := ⟨true, .FWD, false, false, false, false⟩

/-- A one-variable transition system used as a concrete test input. -/
def htsX : HTS := ⟨["x"], ["x"], [], [], .var (.base "x"), .tru, .tru, .tru⟩

/-- Environment with the always-unsat engine. -/
def envFalse : Env := ⟨cfgBase, orcFalse, orcFalse, htsX⟩

/-- Environment with the always-sat engine. -/
def envTrue : Env := ⟨cfgBase, orcTrue, orcTrue, htsX⟩

/-- Caches over the vocabulary `[x]` initialised to horizon `k` with a
non-forward strategy. -/
def ctxX (k : Nat) : TimeCtx := ⟨["x"], k, true⟩

/-- The property `x` (no next variable). -/
def propX : Formula := .var (.base "x")

/-- The property `x'` (contains a next variable). -/
def propNext : Formula := .var (.prime "x")

/-- Depth component of a search result, when the call returned. -/
def retDepth : ExecRes (Int × PyModel) → Option Int
  | .ok r _ => some r.1
  | .err _ _ => Option.none

/-- Push and pop counters of the main solver, when the call returned. -/
def mainPushPop : ExecRes (Int × PyModel) → Option (Nat × Nat)
  | .ok _ st => some (st.main.pushes, st.main.pops)
  | .err _ _ => Option.none

/-- The abort value of a search result, when the call aborted. -/
def errOf : ExecRes (Int × PyModel) → Option Err
  | .ok _ _ => Option.none
  | .err e _ => some e

/-- The abort value of an orchestration result, when the call aborted. -/
def errOfU : ExecRes Unit → Option Err
  | .ok _ _ => Option.none
  | .err e _ => some e

/-- Whether an error-monad computation succeeded. -/
def isOkE {α : Type} : Except Err α → Bool
  | .ok _ => true
  | .error _ => false

/-- The claim C6 reading of the unroller window, written from the spec words:
for each of `n` time steps starting at `t`, one conjunct
`time(trans, t) ∧ time(invar, to)` with `to = t+1` forward and `to = t`
backward. -/
def unrollSpecList (tf : Formula → Int → Except Err Formula) (trans invar : Formula)
    (fwd : Bool) : Int → Nat → Except Err (List Formula)
  | _, 0 => .ok []
  | t, n + 1 =>
    match tf trans t with
    | .error e => .error e
    | .ok f1 =>
      match tf invar (if fwd then t + 1 else t) with
      | .error e => .error e
      | .ok f2 =>
        match unrollSpecList tf trans invar fwd (t + 1) n with
        | .error e => .error e
        | .ok rest => .ok (Formula.and f1 f2 :: rest)

/-- The claim C6 description of `unroll`, written from the spec words: the
conjunction over `t` in `[min(k_start, k_end), max(k_start, k_end))` of
`time(trans, t) ∧ time(invar, to)`, with `time = at_time` and `to = t+1` when
`k_start ≤ k_end`, `time = at_ptime` and `to = t` otherwise; an empty window
yields TRUE. -/
def unrollSpec (ctx : TimeCtx) (trans invar : Formula) (kEnd kStart : Int) :
    Except Err Formula :=
  let fwd := decide (kStart ≤ kEnd)
  let tf : Formula → Int → Except Err Formula :=
    fun f t => if fwd then atTimeE ctx f t else atPtimeE ctx f t
  let a := min kStart kEnd
  let b := max kStart kEnd
  match unrollSpecList tf trans invar fwd a (b - a).toNat with
  | .error e => .error e
  | .ok fs => .ok (andList fs)

/-- The empty transition system, used as a concrete test input. -/
def htsE : HTS := ⟨[], [], [], [], .tru, .tru, .tru, .tru⟩

/-- Environment over the empty system with the always-unsat engine. -/
def envE : Env := ⟨cfgBase, orcFalse, orcFalse, htsE⟩

/-- Caches over the empty vocabulary at horizon 0, non-forward. -/
def ctxE : TimeCtx := ⟨[], 0, true⟩

/-- Environment with strategy NU and the always-unsat engine. -/
def envNU : Env := ⟨{ cfgBase with strategy := Strategy.NU }, orcFalse, orcFalse, htsX⟩

/-- The formula produced by `unroll` over `[x]` for the window `[0, 1)` with
`trans = invar = x`. -/
def unrollW : Formula := .and (.var (.timed "x" 0)) (.var (.timed "x" 1))

/-- The final solver state of
`solveFwd envE ctxE htsE Formula.tru 0 true bmc0` (one unsatisfiable
iteration, no pushes). -/
def stFwdW : BmcSt :=
  ⟨⟨0, 0, 1, [.and .tru .tru, .tru, .not .tru]⟩, ⟨0, 0, 0, []⟩⟩

/-- The miter HTS built by `combinedSystem envE htsE 1 true false bmc0`. -/
def htseqE : HTS :=
  { vars := ["eq_S1_S2"],
    stateVars := [],
    inputs := [],
    outputs := [],
    init := .and (.and .tru .tru) .tru,
    trans := .and (.and .tru .tru) .tru,
    invar := .and (.and .tru .tru)
      (.and .tru (.iff (.var (.base "eq_S1_S2")) (.implies .tru .tru))),
    assumptions := .tru }

/-- The final solver state of `combinedSystem envE htsE 1 true false bmc0`
(a single non-incremental forward query at depth 1, unsatisfiable). -/
def stCombE : BmcSt :=
  ⟨⟨0, 0, 1,
    [.and (.and (.and .tru .tru) .tru)
       (.and (.and .tru .tru)
         (.and .tru (.iff (.var (.timed "eq_S1_S2" 0)) (.implies .tru .tru)))),
     .and (.and (.and .tru .tru) .tru)
       (.and (.and .tru .tru)
         (.and .tru (.iff (.var (.timed "eq_S1_S2" 1)) (.implies .tru .tru)))),
     .not (.var (.timed "eq_S1_S2" 1))]⟩,
   ⟨0, 0, 0, []⟩⟩

/-! ## Lemmas about the time-index caches -/

theorem lookup_append {α β : Type} [BEq α] (l1 l2 : List (α × β)) (a : α) :
    (l1 ++ l2).lookup a =
      match l1.lookup a with
      | some b => some b
      | Option.none => l2.lookup a := by
  induction l1 with
  | nil => simp [List.lookup]
  | cons p rest ih =>
    obtain ⟨k, b⟩ := p
    simp only [List.cons_append, List.lookup]
    cases a == k <;> simp [ih]

theorem lookup_cons_eq {α β : Type} [BEq α] [LawfulBEq α] {a : α} {b : β}
    {l : List (α × β)} : ((a, b) :: l).lookup a = some b := by
  simp [List.lookup]

theorem lookup_cons_ne {α β : Type} [BEq α] [LawfulBEq α] {a k : α} {b : β}
    {l : List (α × β)} (h : a ≠ k) : ((k, b) :: l).lookup a = l.lookup a := by
  have hb : (a == k) = false := beq_eq_false_iff_ne.mpr h
  simp [List.lookup, hb]

theorem lookup_range_map {α : Type} (g : Nat → α) (off : Int) (n : Nat) (t : Int) :
    ((List.range n).map fun i : Nat => ((i : Int) + off, g i)).lookup t =
      if 0 ≤ t - off ∧ t - off < (n : Int) then some (g (t - off).toNat)
      else Option.none := by
  induction n with
  | zero =>
    rw [if_neg (by omega)]
    simp [List.lookup]
  | succ n ih =>
    rw [List.range_succ, List.map_append, lookup_append, ih]
    by_cases h1 : 0 ≤ t - off ∧ t - off < (n : Int)
    · rw [if_pos h1, if_pos (by omega)]
    · rw [if_neg h1]
      simp only [List.map_cons, List.map_nil]
      by_cases h2 : t = (n : Int) + off
      · subst h2
        rw [lookup_cons_eq, if_pos (by omega)]
        have hn : ((n : Int) + off - off).toNat = n := by omega
        rw [hn]
      · rw [lookup_cons_ne h2, if_neg (by omega)]
        simp [List.lookup]

theorem initAtTimeF_lookup (vars : List String) (mt : Nat) (t : Int) :
    (initAtTimeF vars mt).lookup t =
      if 0 ≤ t ∧ t < (mt : Int) + 2 then some (varmapfAt vars t) else Option.none := by
  have e : initAtTimeF vars mt =
      (List.range (mt + 2)).map fun i : Nat => ((i : Int) + 0, varmapfAt vars (i : Int)) := by
    simp [initAtTimeF]
  rw [e, lookup_range_map]
  by_cases h : 0 ≤ t ∧ t < (mt : Int) + 2
  · rw [if_pos (by omega), if_pos h]
    have hc : (((t - 0).toNat : Nat) : Int) = t := by omega
    rw [hc]
  · rw [if_neg (by omega), if_neg h]

theorem initAtTimeB_lookup (vars : List String) (mt : Nat) (t : Int) :
    (initAtTimeB vars mt true).lookup t =
      if -1 ≤ t ∧ t < (mt : Int) + 1 then some (varmapbAt vars (t + 1))
      else Option.none := by
  have e : initAtTimeB vars mt true =
      (List.range (mt + 2)).map fun i : Nat =>
        ((i : Int) + (-1), varmapbAt vars (i : Int)) := by
    simp [initAtTimeB, Int.sub_eq_add_neg]
  rw [e, lookup_range_map]
  by_cases h : -1 ≤ t ∧ t < (mt : Int) + 1
  · rw [if_pos (by omega), if_pos h]
    have hc : (((t - (-1)).toNat : Nat) : Int) = t + 1 := by omega
    rw [hc]
  · rw [if_neg (by omega), if_neg h]

theorem varmapfAt_lookup (vars : List String) (x : String) (hx : x ∈ vars) (t : Int) :
    (varmapfAt vars t).lookup (VName.base x) = some (VName.timed x t) ∧
    (varmapfAt vars t).lookup (VName.prime x) = some (VName.timed x (t + 1)) ∧
    (varmapfAt vars t).lookup (VName.prev x) = some (VName.timed x (t - 1)) := by
  induction vars with
  | nil => simp at hx
  | cons y rest ih =>
    have expand : varmapfAt (y :: rest) t =
        (VName.base y, VName.timed y t) :: (VName.prime y, VName.timed y (t + 1)) ::
        (VName.prev y, VName.timed y (t - 1)) :: varmapfAt rest t := by
      simp [varmapfAt]
    by_cases hxy : x = y
    · subst hxy
      rw [expand]
      refine ⟨?_, ?_, ?_⟩
      · rw [lookup_cons_eq]
      · rw [lookup_cons_ne (by simp), lookup_cons_eq]
      · rw [lookup_cons_ne (by simp), lookup_cons_ne (by simp), lookup_cons_eq]
    · have hx2 : x ∈ rest := by
        rcases List.mem_cons.mp hx with h | h
        · exact absurd h hxy
        · exact h
      have ihr := ih hx2
      rw [expand]
      refine ⟨?_, ?_, ?_⟩
      · rw [lookup_cons_ne (by simp [hxy]), lookup_cons_ne (by simp),
          lookup_cons_ne (by simp)]
        exact ihr.1
      · rw [lookup_cons_ne (by simp), lookup_cons_ne (by simp [hxy]),
          lookup_cons_ne (by simp)]
        exact ihr.2.1
      · rw [lookup_cons_ne (by simp), lookup_cons_ne (by simp),
          lookup_cons_ne (by simp [hxy])]
        exact ihr.2.2

theorem varmapbAt_lookup (vars : List String) (x : String) (hx : x ∈ vars) (t : Int) :
    (varmapbAt vars t).lookup (VName.base x) = some (VName.ptimed x t) ∧
    (varmapbAt vars t).lookup (VName.prime x) = some (VName.ptimed x (t - 1)) ∧
    (varmapbAt vars t).lookup (VName.prev x) = some (VName.ptimed x (t + 1)) := by
  induction vars with
  | nil => simp at hx
  | cons y rest ih =>
    have expand : varmapbAt (y :: rest) t =
        (VName.base y, VName.ptimed y t) :: (VName.prime y, VName.ptimed y (t - 1)) ::
        (VName.prev y, VName.ptimed y (t + 1)) :: varmapbAt rest t := by
      simp [varmapbAt]
    by_cases hxy : x = y
    · subst hxy
      rw [expand]
      refine ⟨?_, ?_, ?_⟩
      · rw [lookup_cons_eq]
      · rw [lookup_cons_ne (by simp), lookup_cons_eq]
      · rw [lookup_cons_ne (by simp), lookup_cons_ne (by simp), lookup_cons_eq]
    · have hx2 : x ∈ rest := by
        rcases List.mem_cons.mp hx with h | h
        · exact absurd h hxy
        · exact h
      have ihr := ih hx2
      rw [expand]
      refine ⟨?_, ?_, ?_⟩
      · rw [lookup_cons_ne (by simp [hxy]), lookup_cons_ne (by simp),
          lookup_cons_ne (by simp)]
        exact ihr.1
      · rw [lookup_cons_ne (by simp), lookup_cons_ne (by simp [hxy]),
          lookup_cons_ne (by simp)]
        exact ihr.2.1
      · rw [lookup_cons_ne (by simp), lookup_cons_ne (by simp),
          lookup_cons_ne (by simp [hxy])]
        exact ihr.2.2

/-- C1 (amended): for every variable `x` in the vocabulary passed to
`_init_at_time` and every pseudo-time `t` in the backward cache domain
`[-1, maxtime]`, the substitution applied by `at_ptime(f, t)` maps the
current-flavor name `x` to `x#(t+1)`, the next-flavor name to `x#t`, and the
prev-flavor name to `x#(t+2)` — one step later than the spec table, which
describes the dictionary built during loop iteration `t` but stored at key
`t-1`. -/
theorem atPtime_substitution (vars : List String) (mt : Nat) (x : String) (t : Int)
    (hx : x ∈ vars) (h1 : -1 ≤ t) (h2 : t ≤ (mt : Int)) :
    atPtime vars mt true (.var (.base x)) t = some (.var (.ptimed x (t + 1))) ∧
    atPtime vars mt true (.var (.prime x)) t = some (.var (.ptimed x t)) ∧
    atPtime vars mt true (.var (.prev x)) t = some (.var (.ptimed x (t + 2))) := by
  have hl := initAtTimeB_lookup vars mt t
  rw [if_pos (by omega)] at hl
  have hm := varmapbAt_lookup vars x hx (t + 1)
  have e1 : t + 1 - 1 = t := by omega
  have e2 : t + 1 + 1 = t + 2 := by omega
  rw [e1] at hm
  rw [e2] at hm
  refine ⟨?_, ?_, ?_⟩ <;> rw [atPtime, hl] <;>
    simp [substF, hm.1, hm.2.1, hm.2.2]

/-- C1 witness: the amended mapping at the concrete input
`vars = [x], maxtime = 0, t = -1`. -/
theorem atPtime_substitution_witness :
    atPtime ["x"] 0 true (.var (.base "x")) (-1) = some (.var (.ptimed "x" (-1 + 1))) ∧
    atPtime ["x"] 0 true (.var (.prime "x")) (-1) = some (.var (.ptimed "x" (-1))) ∧
    atPtime ["x"] 0 true (.var (.prev "x")) (-1) = some (.var (.ptimed "x" (-1 + 2))) :=
  atPtime_substitution ["x"] 0 "x" (-1) (by decide) (by decide) (by decide)

/-- C1 counterexample: at the concrete input `vars = [x], maxtime = 0` and
pseudo-time `t = 0` (which is in the backward cache domain), the claim says
`at_ptime` maps `x` to `x#0`; the code maps it to `x#1`. -/
theorem atPtime_claim_counterexample :
    atPtime ["x"] 0 true (.var (.base "x")) 0 = some (.var (.ptimed "x" 1)) ∧
    atPtime ["x"] 0 true (.var (.base "x")) 0 ≠ some (.var (.ptimed "x" 0)) := by
  constructor
  · decide
  · decide

/-- C2 (amended): after `_init_at_time(vars, k)` with a non-forward strategy,
`at_time(v, t)`, `at_time(v-next, t)` and `at_time(v-prev, t)` are defined for
every `v ∈ vars` and `t ∈ [0, k+1]`, and `at_ptime` is defined exactly on the
backward keys `[-1, k]` — not `[-1, k+1]` as the spec states. -/
theorem cache_totality (vars : List String) (mt : Nat) (x : String) (t : Int)
    (hx : x ∈ vars) :
    (0 ≤ t → t ≤ (mt : Int) + 1 →
      atTime vars mt (.var (.base x)) t = some (.var (.timed x t)) ∧
      atTime vars mt (.var (.prime x)) t = some (.var (.timed x (t + 1))) ∧
      atTime vars mt (.var (.prev x)) t = some (.var (.timed x (t - 1)))) ∧
    (-1 ≤ t → t ≤ (mt : Int) → ((initAtTimeB vars mt true).lookup t).isSome) := by
  constructor
  · intro h1 h2
    have hl := initAtTimeF_lookup vars mt t
    rw [if_pos (by omega)] at hl
    have hm := varmapfAt_lookup vars x hx t
    refine ⟨?_, ?_, ?_⟩ <;> rw [atTime, hl] <;>
      simp [substF, hm.1, hm.2.1, hm.2.2]
  · intro h1 h2
    rw [initAtTimeB_lookup, if_pos (by omega)]
    rfl

/-- C2 witness: definedness at the concrete input `vars = [x], k = 1, t = 2`
(forward) and, via the second conjunct at `t = 1`, the backward cache. -/
theorem cache_totality_witness :
    (atTime ["x"] 1 (.var (.base "x")) 2 = some (.var (.timed "x" 2)) ∧
      atTime ["x"] 1 (.var (.prime "x")) 2 = some (.var (.timed "x" (2 + 1))) ∧
      atTime ["x"] 1 (.var (.prev "x")) 2 = some (.var (.timed "x" (2 - 1)))) ∧
    ((initAtTimeB ["x"] 1 true).lookup 1).isSome :=
  ⟨(cache_totality ["x"] 1 "x" 2 (by decide)).1 (by decide) (by decide),
   (cache_totality ["x"] 1 "x" 1 (by decide)).2 (by decide) (by decide)⟩

/-- C2 counterexample: with `k = 0` the claim says `at_ptime(f, t)` is
defined for every `t ∈ [-1, k+1]`, in particular at `t = 1`; the backward
cache has keys `[-1, 0]` only, so the lookup raises `KeyError`. -/
theorem cache_bwd_domain_counterexample :
    (initAtTimeB ["x"] 0 true).lookup 1 = Option.none ∧
    atPtime ["x"] 0 true (.var (.base "x")) 1 = Option.none := by
  constructor
  · decide
  · decide

theorem atTimeE_ok (ctx : TimeCtx) (f : Formula) (t : Int) (h1 : 0 ≤ t)
    (h2 : t ≤ (ctx.mt : Int) + 1) :
    atTimeE ctx f t = .ok (substF (varmapfAt ctx.vars t) f) := by
  unfold atTimeE
  rw [initAtTimeF_lookup, if_pos (by omega)]

theorem atPtimeE_ok (ctx : TimeCtx) (f : Formula) (t : Int) (hp : ctx.previous = true)
    (h1 : -1 ≤ t) (h2 : t ≤ (ctx.mt : Int)) :
    atPtimeE ctx f t = .ok (substF (varmapbAt ctx.vars (t + 1)) f) := by
  unfold atPtimeE
  rw [hp, initAtTimeB_lookup, if_pos (by omega)]

/-! ## C4: push/pop and the declared-symbols set of the SMT-LIB trace -/

/-- C4 (code bug): `_push` snapshots `smt2vars` by reference and
`_add_assertion` mutates that same set object, so `_pop` does not restore the
declared-symbols set: in the concrete scenario push / assert (declaring a
fresh symbol) / pop / assert the same formula again, the second assertion
emits no `declare-fun` (the log holds exactly one declaration), and after the
pop the declared set still contains the symbol declared inside the
push/pop pair — while the spec and claim require the set to be restored and
the declaration re-emitted. -/
theorem smt2vars_not_restored :
    (traceAddAssertion (tracePop (traceAddAssertion (tracePush traceInit)
        Option.none (.var (.timed "x" 0)))) Option.none (.var (.timed "x" 0))).log =
      [.pushL, .decl (.timed "x" 0), .assertL (.var (.timed "x" 0)), .popL,
       .assertL (.var (.timed "x" 0))] ∧
    ((tracePop (traceAddAssertion (tracePush traceInit) Option.none
        (.var (.timed "x" 0)))).store.getD
      (tracePop (traceAddAssertion (tracePush traceInit) Option.none
        (.var (.timed "x" 0)))).cur []) = [VName.timed "x" 0] := by
  constructor
  · decide
  · decide

/-! ## C5: next-state properties in the incremental forward search -/

/-- C5 (amended): in `solve_inc_fwd`, if the property contains a next-state
variable then with `k < 1` the search aborts with a fatal error; otherwise
the effective minimum depth used by the loop is exactly 1 — a caller-supplied
`k_min` greater than 1 is lowered to 1, not preserved as `max(k_min, 1)` —
and the checked property index is shifted down by one. -/
theorem next_var_kmin (env : Env) (ctx : TimeCtx) (hts : HTS) (prop : Formula)
    (kMin0 : Nat) (t : Int) (st0 : BmcSt) (h : hasNext prop = true) :
    errOf (solveIncFwd env ctx hts prop 0 kMin0 st0) =
      some (.fatal "Invariant checking with next variables requires at least k=1") ∧
    solveIncFwdKmin prop kMin0 = 1 ∧
    solveIncFwdTprop (hasNext prop) t = t - 1 := by
  refine ⟨?_, by simp [solveIncFwdKmin, h], by simp [solveIncFwdTprop, h]⟩
  have ha : ∀ g : Formula, atTimeE ctx g 0 = .ok (substF (varmapfAt ctx.vars 0) g) :=
    fun g => atTimeE_ok ctx g 0 (by omega) (by omega)
  unfold solveIncFwd
  simp only [ha, h]
  by_cases hp : env.cfg.prove <;> simp [hp, errOf]

/-- C5 witness: the amended behaviour at a concrete next-variable property
with caller `k_min = 5` and time index 7. -/
theorem next_var_kmin_witness :
    errOf (solveIncFwd envTrue (ctxX 1) htsX propNext 0 5 bmc0) =
      some (.fatal "Invariant checking with next variables requires at least k=1") ∧
    solveIncFwdKmin propNext 5 = 1 ∧
    solveIncFwdTprop (hasNext propNext) 7 = 7 - 1 :=
  next_var_kmin envTrue (ctxX 1) htsX propNext 5 7 bmc0 (by decide)

/-- C5 counterexample: at the concrete next-variable property with caller
`k_min = 2` and horizon `k = 1`, the claim predicts an effective minimum
depth of `max(2, 1) = 2`, so no check-sat would happen at any `t ≤ 1`; the
code lowers the effective minimum depth to 1 and, with a sat engine, performs
a query at `t = 1` and returns a counterexample at depth 1. -/
theorem next_var_kmin_counterexample :
    hasNext propNext = true ∧
    solveIncFwdKmin propNext 2 = 1 ∧
    solveIncFwdKmin propNext 2 ≠ max 2 1 ∧
    retDepth (solveIncFwd envTrue (ctxX 1) htsX propNext 1 2 bmc0) = some 1 := by
  refine ⟨by decide, by decide, by decide, by decide⟩

/-! ## C8: backward and zig-zag reject next-state properties -/

/-- C8: for every property containing a next-state variable, both
`solve_inc_bwd` and `solve_inc_zz` abort with the fatal configuration error
for every environment, HTS, horizon, cache state and incoming solver state,
and they do so right after the entry reset, before asserting anything (the
solver state returned with the error carries an empty assertion list). -/
theorem bwd_zz_next_var_fatal (env : Env) (ctx : TimeCtx) (hts : HTS)
    (prop : Formula) (k : Nat) (st0 : BmcSt) (h : hasNext prop = true) :
    solveIncBwd env ctx hts prop k st0 =
      .err (.fatal "Invariant checking with next variables only supports FWD strategy")
        (resetMain st0) ∧
    solveIncZz env ctx hts prop k st0 =
      .err (.fatal "Invariant checking with next variables only supports FWD strategy")
        (resetMain st0) ∧
    (resetMain st0).main.asserts = [] := by
  refine ⟨?_, ?_, rfl⟩
  · unfold solveIncBwd
    simp [h]
  · unfold solveIncZz
    simp [h]

/-- C8 witness: the fatal abort at the concrete next-variable property. -/
theorem bwd_zz_next_var_fatal_witness :
    solveIncBwd envTrue (ctxX 1) htsX propNext 1 bmc0 =
      .err (.fatal "Invariant checking with next variables only supports FWD strategy")
        (resetMain bmc0) ∧
    solveIncZz envTrue (ctxX 1) htsX propNext 1 bmc0 =
      .err (.fatal "Invariant checking with next variables only supports FWD strategy")
        (resetMain bmc0) ∧
    (resetMain bmc0).main.asserts = [] :=
  bwd_zz_next_var_fatal envTrue (ctxX 1) htsX propNext 1 bmc0 (by decide)

/-! ## C9: fsm_check always hits the unbound name -/

/-- C9: `fsm_check` never completes normally: whatever `combined_system`
does, the result is an abort; and whenever `combined_system` returns, the
abort is precisely the name-resolution error on the unbound `k`. -/
theorem fsm_check_never_ok (env : Env) (st0 : BmcSt) :
    (∀ (u : Unit) (st1 : BmcSt), fsmCheck env st0 ≠ .ok u st1) ∧
    (∀ (h : HTS) (t : Int) (m : PyModel) (st1 : BmcSt),
      combinedSystem env env.selfHts 1 true false st0 = .ok (h, t, m) st1 →
      fsmCheck env st0 = .err .nameError st1) := by
  constructor
  · intro u st1
    unfold fsmCheck
    cases combinedSystem env env.selfHts 1 true false st0 <;> simp
  · intro h t m st1 hc
    unfold fsmCheck
    rw [hc]

/-- C9 witness: on the empty system with an unsat engine, `combined_system`
returns normally (with depth -1) and `fsm_check` aborts with the
name-resolution error. -/
theorem fsm_check_never_ok_witness :
    fsmCheck envE bmc0 = .err .nameError stCombE :=
  (fsm_check_never_ok envE bmc0).2 htseqE (-1) .none stCombE (by decide)

/-! ## C10: unsatisfiable initial state in the no-unroll simulator -/

theorem unroll_1_0_ok (ctx : TimeCtx) (trans invar : Formula) :
    unroll ctx trans invar 1 0 = .ok (.and (substF (varmapfAt ctx.vars 0) trans)
      (substF (varmapfAt ctx.vars 1) invar)) := by
  have h0 := atTimeE_ok ctx trans 0 (by omega) (by omega)
  have h1 := atTimeE_ok ctx invar 1 (by omega) (by omega)
  simp [unroll, unrollList, h0, h1, andList]

theorem simNoUnroll_unsat (env : Env) (ctx : TimeCtx) (hts : HTS) (cover : Formula)
    (k : Nat) (allVars inc : Bool) (st0 : BmcSt)
    (hskip : env.cfg.skipSolving = false)
    (hsat : env.orc.sat st0.main.calls = false) :
    simNoUnroll env ctx hts cover k allVars inc st0 =
      .ok (0, PyModel.none)
        { st0 with main := { st0.main with
            asserts := [.and (substF (varmapfAt ctx.vars 0) hts.init)
              (substF (varmapfAt ctx.vars 0) hts.invar)],
            calls := st0.main.calls + 1 } } := by
  have hi := atTimeE_ok ctx hts.init 0 (by omega) (by omega)
  have hv := atTimeE_ok ctx hts.invar 0 (by omega) (by omega)
  have hc := atTimeE_ok ctx cover 1 (by omega) (by omega)
  have hu := unroll_1_0_ok ctx hts.trans hts.invar
  unfold simNoUnroll
  rw [hi, hv, hu, hc]
  simp [solveMain, hskip, hsat, resetMain, assertMain]

/-- C10: if the initial query `at_time(init ∧ invar, 0)` is unsatisfiable,
`sim_no_unroll` returns `(0, None)` — a non-negative depth with a `None`
model — rather than the `(-1, full_model)` deadlock shape, so `simulate`
under strategy NU takes its `t > -1` success branch for an HTS whose
initial-state constraint is unsatisfiable. -/
theorem sim_unsat_init_success (env : Env) (ctx : TimeCtx) (hts : HTS)
    (cover : Formula) (k : Nat) (allVars inc : Bool) (st0 : BmcSt)
    (hskip : env.cfg.skipSolving = false)
    (hsat : env.orc.sat st0.main.calls = false) :
    simNoUnroll env ctx hts cover k allVars inc st0 =
      .ok (0, PyModel.none)
        { st0 with main := { st0.main with
            asserts := [.and (substF (varmapfAt ctx.vars 0) hts.init)
              (substF (varmapfAt ctx.vars 0) hts.invar)],
            calls := st0.main.calls + 1 } } ∧
    (env.cfg.strategy = Strategy.NU →
      simulate env cover k st0 = .ok (VStatus.tru, some ())
        { st0 with main := { st0.main with
            asserts := [.and (substF (varmapfAt env.selfHts.vars 0) env.selfHts.init)
              (substF (varmapfAt env.selfHts.vars 0) env.selfHts.invar)],
            calls := st0.main.calls + 1 } }) := by
  refine ⟨simNoUnroll_unsat env ctx hts cover k allVars inc st0 hskip hsat, ?_⟩
  intro hnu
  have h1 := simNoUnroll_unsat env
    ⟨env.selfHts.vars, 1, Strategy.NU != Strategy.FWD⟩ env.selfHts cover k true true
    st0 hskip hsat
  unfold simulate
  simp only [hnu] at *
  rw [h1]
  simp [remapModel]

/-- C10 witness: the concrete system with `init = x`, an always-unsat
engine and strategy NU. -/
theorem sim_unsat_init_success_witness :
    simNoUnroll envNU (ctxX 1) htsX propX 3 true true bmc0 =
      .ok (0, PyModel.none)
        { bmc0 with main := { bmc0.main with
            asserts := [.and (substF (varmapfAt (ctxX 1).vars 0) htsX.init)
              (substF (varmapfAt (ctxX 1).vars 0) htsX.invar)],
            calls := bmc0.main.calls + 1 } } ∧
    simulate envNU propX 3 bmc0 = .ok (VStatus.tru, some ())
        { bmc0 with main := { bmc0.main with
            asserts := [.and (substF (varmapfAt envNU.selfHts.vars 0) envNU.selfHts.init)
              (substF (varmapfAt envNU.selfHts.vars 0) envNU.selfHts.invar)],
            calls := bmc0.main.calls + 1 } } :=
  ⟨(sim_unsat_init_success envNU (ctxX 1) htsX propX 3 true true bmc0
      (by decide) (by decide)).1,
   (sim_unsat_init_success envNU (ctxX 1) htsX propX 3 true true bmc0
      (by decide) (by decide)).2 rfl⟩

/-! ## C6: the unroller builds the spec-stated conjunction -/

theorem evalF_andList (σ : VName → Bool) (l : List Formula) :
    evalF σ (andList l) = l.all (evalF σ) := by
  induction l with
  | nil => simp [andList, evalF]
  | cons f fs ih =>
    cases fs with
    | nil => simp [andList, evalF]
    | cons g gs => simp [andList, evalF, ih]

theorem unrollList_spec (tf : Formula → Int → Except Err Formula)
    (trans invar : Formula) (fwd : Bool) :
    ∀ (n : Nat) (t : Int) (l1 : List Formula),
      unrollList tf trans invar fwd t n = .ok l1 →
      ∃ l2, unrollSpecList tf trans invar fwd t n = .ok l2 ∧
        ∀ σ, l1.all (evalF σ) = l2.all (evalF σ) := by
  intro n
  induction n with
  | zero =>
    intro t l1 h
    simp only [unrollList] at h
    cases h
    exact ⟨[], rfl, fun σ => rfl⟩
  | succ n ih =>
    intro t l1 h
    simp only [unrollList] at h
    cases h1 : tf trans t with
    | error e => rw [h1] at h; cases h
    | ok f1 =>
      rw [h1] at h
      cases h2 : tf invar (if fwd then t + 1 else t) with
      | error e => rw [h2] at h; cases h
      | ok f2 =>
        rw [h2] at h
        cases h3 : unrollList tf trans invar fwd (t + 1) n with
        | error e => rw [h3] at h; cases h
        | ok rest =>
          rw [h3] at h
          cases h
          obtain ⟨l2, hl2, hall⟩ := ih (t + 1) rest h3
          refine ⟨.and f1 f2 :: l2, ?_, fun σ => ?_⟩
          · simp only [unrollSpecList, h1, h2, hl2]
          · simp [evalF, hall σ, Bool.and_assoc]

theorem unrollList_spec_isOk (tf : Formula → Int → Except Err Formula)
    (trans invar : Formula) (fwd : Bool) :
    ∀ (n : Nat) (t : Int),
      isOkE (unrollList tf trans invar fwd t n) =
        isOkE (unrollSpecList tf trans invar fwd t n) := by
  intro n
  induction n with
  | zero => intro t; rfl
  | succ n ih =>
    intro t
    simp only [unrollList, unrollSpecList]
    cases tf trans t with
    | error e => rfl
    | ok f1 =>
      cases tf invar (if fwd then t + 1 else t) with
      | error e => rfl
      | ok f2 =>
        have hsync := ih (t + 1)
        cases h3 : unrollList tf trans invar fwd (t + 1) n with
        | error e =>
          rw [h3] at hsync
          cases h4 : unrollSpecList tf trans invar fwd (t + 1) n with
          | error e2 => rfl
          | ok l2 => rw [h4] at hsync; simp [isOkE] at hsync
        | ok l1 =>
          rw [h3] at hsync
          cases h4 : unrollSpecList tf trans invar fwd (t + 1) n with
          | error e2 => rw [h4] at hsync; simp [isOkE] at hsync
          | ok l2 => rfl

theorem isOkE_wrap (r : Except Err (List Formula)) :
    isOkE (match r with
      | .error e => (.error e : Except Err Formula)
      | .ok fs => .ok (andList fs)) = isOkE r := by
  cases r <;> rfl

theorem unrollGen_spec (tf : Formula → Int → Except Err Formula)
    (trans invar : Formula) (fwd : Bool) (a : Int) (n : Nat) (F G : Formula)
    (hF : (match unrollList tf trans invar fwd a n with
           | .error e => (.error e : Except Err Formula)
           | .ok fs => .ok (andList fs)) = .ok F)
    (hG : (match unrollSpecList tf trans invar fwd a n with
           | .error e => (.error e : Except Err Formula)
           | .ok fs => .ok (andList fs)) = .ok G) :
    ∀ σ, evalF σ F = evalF σ G := by
  intro σ
  cases h1 : unrollList tf trans invar fwd a n with
  | error e => rw [h1] at hF; cases hF
  | ok l1 =>
    rw [h1] at hF
    cases hF
    obtain ⟨l2, hl2, hall⟩ := unrollList_spec tf trans invar fwd n a l1 h1
    rw [hl2] at hG
    cases hG
    rw [evalF_andList, evalF_andList, hall σ]

/-- C6: `unroll(trans, invar, k_end, k_start)` agrees with the spec-stated
conjunction over the window `[min, max)` of `time(trans, t) ∧ time(invar, to)`
(forward: `time = at_time`, `to = t+1`; backward: `time = at_ptime`,
`to = t`): whenever both produce a formula the two are semantically equal,
they succeed or fail together, and an empty window yields TRUE. -/
theorem unroll_matches_spec (ctx : TimeCtx) (trans invar : Formula)
    (kEnd kStart : Int) (F G : Formula) (σ : VName → Bool) :
    (unroll ctx trans invar kEnd kStart = .ok F →
      unrollSpec ctx trans invar kEnd kStart = .ok G → evalF σ F = evalF σ G) ∧
    isOkE (unroll ctx trans invar kEnd kStart) =
      isOkE (unrollSpec ctx trans invar kEnd kStart) ∧
    (kStart = kEnd → unroll ctx trans invar kEnd kStart = .ok Formula.tru) := by
  refine ⟨?_, ?_, ?_⟩
  · intro hF hG
    exact unrollGen_spec _ trans invar _ _ _ F G hF hG σ
  · exact (isOkE_wrap _).trans
      (((unrollList_spec_isOk _ trans invar _ _ _).trans (isOkE_wrap _).symm))
  · intro h
    subst h
    unfold unroll
    simp [unrollList, andList]

/-- C6 witness: the concrete window `[0, 1)` over `[x]` (both sides produce
`x@0 ∧ x@1`) and the empty window `[1, 1)`. -/
theorem unroll_matches_spec_witness :
    evalF (fun _ => true) unrollW = evalF (fun _ => true) unrollW ∧
    isOkE (unroll (ctxX 1) propX propX 1 0) =
      isOkE (unrollSpec (ctxX 1) propX propX 1 0) ∧
    unroll (ctxX 1) propX propX 1 1 = .ok Formula.tru :=
  ⟨(unroll_matches_spec (ctxX 1) propX propX 1 0 unrollW unrollW (fun _ => true)).1
      (by decide) (by decide),
   (unroll_matches_spec (ctxX 1) propX propX 1 0 unrollW unrollW (fun _ => true)).2.1,
   (unroll_matches_spec (ctxX 1) propX propX 1 1 unrollW unrollW (fun _ => true)).2.2 rfl⟩

/-! ## C7: the lemma pipeline -/

theorem addLemmasLoop_spec (env : Env) (ctx : TimeCtx) (hts : HTS) (prop : Formula) :
    ∀ (ls holding : List Formula) (st : BmcSt),
      addLemmasLoop env ctx hts prop ls holding st =
        match lemmaPipelineSpec (checkLemma env ctx hts) (checkLemmas env prop)
            ls holding st with
        | .ok .implied st1 => .ok (hts, true) st1
        | .ok (.holding hl) st1 => .ok ({ hts with assumptions := andList hl }, false) st1
        | .err e st1 => .err e st1 := by
  intro ls
  induction ls with
  | nil => intro holding st; rfl
  | cons lem rest ih =>
    intro holding st
    simp only [addLemmasLoop, lemmaPipelineSpec]
    cases checkLemma env ctx hts lem st with
    | err e st1 => rfl
    | ok b st1 =>
      cases b with
      | false => exact ih holding st1
      | true =>
        dsimp only
        rcases hc : checkLemmas env prop (holding ++ [lem]) st1 with ⟨rb, rst⟩
        cases rb with
        | true => rfl
        | false => exact ih (holding ++ [lem]) rst

/-- C7: for every non-empty lemma list, `add_lemmas` behaves exactly as the
spec-side pipeline `lemmaPipelineSpec` describes: lemmas are processed in
order, a lemma failing either check is dropped and the loop proceeds, a lemma
passing both is appended to the holding set and the pipeline then checks
whether the holding conjunction implies the property, returning `(hts, True)`
immediately if so; a completed loop stores the conjunction of exactly the
holding lemmas into the assumptions slot and returns `(hts, False)`. -/
theorem add_lemmas_pipeline (env : Env) (ctx : TimeCtx) (hts : HTS) (prop : Formula)
    (lemmas : List Formula) (st0 : BmcSt) (hne : lemmas ≠ []) :
    addLemmas env ctx hts prop lemmas st0 =
      match lemmaPipelineSpec (checkLemma env ctx hts) (checkLemmas env prop)
          lemmas [] (resetMain st0) with
      | .ok .implied st1 => .ok (hts, true) st1
      | .ok (.holding hl) st1 => .ok ({ hts with assumptions := andList hl }, false) st1
      | .err e st1 => .err e st1 := by
  have hlen : (lemmas.length == 0) = false := by
    cases lemmas with
    | nil => exact absurd rfl hne
    | cons a l => rfl
  unfold addLemmas
  rw [hlen]
  exact addLemmasLoop_spec env ctx hts prop lemmas [] (resetMain st0)

/-- C7 witness: the pipeline equality at the one-lemma list `[x]` over the
concrete system with an always-unsat engine (the lemma holds and comes to
imply the property, so the call returns `(hts, True)`). -/
theorem add_lemmas_pipeline_witness :
    addLemmas envFalse (ctxX 0) htsX propX [propX] bmc0 =
      match lemmaPipelineSpec (checkLemma envFalse (ctxX 0) htsX)
          (checkLemmas envFalse propX) [propX] [] (resetMain bmc0) with
      | .ok .implied st1 => .ok (htsX, true) st1
      | .ok (.holding hl) st1 => .ok ({ htsX with assumptions := andList hl }, false) st1
      | .err e st1 => .err e st1 :=
  add_lemmas_pipeline envFalse (ctxX 0) htsX propX [propX] bmc0 (by decide)

/-! ## C3: push/pop discipline of the search loops -/


@[simp] theorem pushMain_main_pushes (st : BmcSt) : (pushMain st).main.pushes = st.main.pushes + 1 := rfl
@[simp] theorem pushMain_main_pops (st : BmcSt) : (pushMain st).main.pops = st.main.pops := rfl
@[simp] theorem pushMain_ind (st : BmcSt) : (pushMain st).ind = st.ind := rfl
@[simp] theorem popMain_main_pushes (st : BmcSt) : (popMain st).main.pushes = st.main.pushes := rfl
@[simp] theorem popMain_main_pops (st : BmcSt) : (popMain st).main.pops = st.main.pops + 1 := rfl
@[simp] theorem popMain_ind (st : BmcSt) : (popMain st).ind = st.ind := rfl
@[simp] theorem assertMain_main_pushes (st : BmcSt) (f : Formula) : (assertMain st f).main.pushes = st.main.pushes := rfl
@[simp] theorem assertMain_main_pops (st : BmcSt) (f : Formula) : (assertMain st f).main.pops = st.main.pops := rfl
@[simp] theorem assertMain_ind (st : BmcSt) (f : Formula) : (assertMain st f).ind = st.ind := rfl
@[simp] theorem resetMain_main_pushes (st : BmcSt) : (resetMain st).main.pushes = st.main.pushes := rfl
@[simp] theorem resetMain_main_pops (st : BmcSt) : (resetMain st).main.pops = st.main.pops := rfl
@[simp] theorem resetMain_ind (st : BmcSt) : (resetMain st).ind = st.ind := rfl
@[simp] theorem pushInd_main (st : BmcSt) : (pushInd st).main = st.main := rfl
@[simp] theorem pushInd_ind_pushes (st : BmcSt) : (pushInd st).ind.pushes = st.ind.pushes + 1 := rfl
@[simp] theorem pushInd_ind_pops (st : BmcSt) : (pushInd st).ind.pops = st.ind.pops := rfl
@[simp] theorem popInd_main (st : BmcSt) : (popInd st).main = st.main := rfl
@[simp] theorem popInd_ind_pushes (st : BmcSt) : (popInd st).ind.pushes = st.ind.pushes := rfl
@[simp] theorem popInd_ind_pops (st : BmcSt) : (popInd st).ind.pops = st.ind.pops + 1 := rfl
@[simp] theorem assertInd_main (st : BmcSt) (f : Formula) : (assertInd st f).main = st.main := rfl
@[simp] theorem assertInd_ind_pushes (st : BmcSt) (f : Formula) : (assertInd st f).ind.pushes = st.ind.pushes := rfl
@[simp] theorem assertInd_ind_pops (st : BmcSt) (f : Formula) : (assertInd st f).ind.pops = st.ind.pops := rfl
@[simp] theorem resetInd_main (st : BmcSt) : (resetInd st).main = st.main := rfl
@[simp] theorem resetInd_ind_pushes (st : BmcSt) : (resetInd st).ind.pushes = st.ind.pushes := rfl
@[simp] theorem resetInd_ind_pops (st : BmcSt) : (resetInd st).ind.pops = st.ind.pops := rfl

theorem solveMain_snd (env : Env) (st : BmcSt) (b : Bool) (st2 : BmcSt)
    (h : solveMain env st = (b, st2)) :
    st2.main.pushes = st.main.pushes ∧ st2.main.pops = st.main.pops ∧ st2.ind = st.ind := by
  unfold solveMain at h
  split at h <;> cases h <;> exact ⟨rfl, rfl, rfl⟩

theorem solveInd_snd (env : Env) (st : BmcSt) (b : Bool) (st2 : BmcSt)
    (h : solveInd env st = (b, st2)) :
    st2.main = st.main ∧ st2.ind.pushes = st.ind.pushes ∧ st2.ind.pops = st.ind.pops := by
  unfold solveInd at h
  split at h <;> cases h <;> exact ⟨rfl, rfl, rfl⟩

theorem solveFwdStep_counters (env : Env) (ctx : TimeCtx) (init trans invar prop : Formula)
    (t : Int) (st : BmcSt) :
    ∀ out st1, solveFwdStep env ctx init trans invar prop t st = .ok out st1 →
      st1.main.pushes = st.main.pushes ∧ st1.main.pops = st.main.pops ∧ st1.ind = st.ind := by
  intro out st1 h
  unfold solveFwdStep at h
  repeat' split at h
  all_goals try (dsimp only at h; split at h)
  all_goals cases h
  all_goals
    rename_i st2 heq
    obtain ⟨a, b, c⟩ := solveMain_snd _ _ _ _ heq
    simp_all

theorem solveFwdLoop_counters (env : Env) (ctx : TimeCtx) (init trans invar prop : Formula) :
    ∀ (fuel : Nat) (t : Int) (st : BmcSt) (r : Int × PyModel) (st1 : BmcSt),
      solveFwdLoop env ctx init trans invar prop fuel t st = .ok r st1 →
      st1.main.pushes = st.main.pushes ∧ st1.main.pops = st.main.pops ∧ st1.ind = st.ind := by
  intro fuel
  induction fuel with
  | zero =>
    intro t st r st1 h
    cases h
    exact ⟨rfl, rfl, rfl⟩
  | succ n ih =>
    intro t st r st1 h
    simp only [solveFwdLoop] at h
    cases hs : solveFwdStep env ctx init trans invar prop t st with
    | err e s2 => rw [hs] at h; cases h
    | ok out s2 =>
      obtain ⟨e1, e2, e3⟩ := solveFwdStep_counters env ctx init trans invar prop t st out s2 hs
      cases out with
      | ret r2 =>
        simp only [hs] at h
        cases h
        exact ⟨e1, e2, e3⟩
      | next a =>
        simp only [hs] at h
        obtain ⟨f1, f2, f3⟩ := ih (t + 1) s2 r st1 h
        exact ⟨f1.trans e1, f2.trans e2, f3.trans e3⟩

theorem bwdStep_counters (env : Env) (ctx : TimeCtx) (init trans invar prop : Formula)
    (t : Int) (st : BmcSt) :
    ∀ out st1, bwdStep env ctx init trans invar prop t st = .ok out st1 →
      (out = .next () ∧ st1.main.pushes = st.main.pushes + 1 ∧
        st1.main.pops = st.main.pops + 1 ∧ st1.ind = st.ind) ∨
      ((∃ n, out = .ret (t, .tok n)) ∧ st1.main.pushes = st.main.pushes + 1 ∧
        st1.main.pops = st.main.pops ∧ st1.ind = st.ind) := by
  intro out st1 h
  unfold bwdStep at h
  cases h1 : atPtimeE ctx init (t - 1) with
  | error e => rw [h1] at h; cases h
  | ok pinit =>
    rw [h1] at h
    dsimp only at h
    cases h2 : solveMain env (assertMain (pushMain st) pinit) with
    | mk b st2 =>
      rw [h2] at h
      obtain ⟨a1, a2, a3⟩ := solveMain_snd _ _ _ _ h2
      cases b with
      | true =>
        dsimp only at h
        cases h
        right
        exact ⟨⟨_, rfl⟩, by simp_all, by simp_all, by simp_all⟩
      | false =>
        dsimp only at h
        cases h3 : unroll ctx trans invar t (t + 1) with
        | error e => rw [h3] at h; cases h
        | ok transT =>
          rw [h3] at h
          dsimp only at h
          split at h
          · split at h
            · cases h
            · cases h
              left
              exact ⟨rfl, by simp_all, by simp_all, by simp_all⟩
          · cases h
            left
            exact ⟨rfl, by simp_all, by simp_all, by simp_all⟩

theorem bwdLoop_counters (env : Env) (ctx : TimeCtx) (init trans invar prop : Formula) :
    ∀ (fuel : Nat) (t : Int) (st : BmcSt) (r : Int × PyModel) (st1 : BmcSt),
      bwdLoop env ctx init trans invar prop fuel t st = .ok r st1 →
      (r.2 = .none →
        st1.main.pushes + st.main.pops = st.main.pushes + st1.main.pops) ∧
      (∀ n, r.2 = .tok n →
        st1.main.pushes + st.main.pops = st.main.pushes + st1.main.pops + 1) ∧
      st1.ind = st.ind := by
  intro fuel
  induction fuel with
  | zero =>
    intro t st r st1 h
    cases h
    refine ⟨fun _ => by omega, fun n hn => by simp at hn, rfl⟩
  | succ n ih =>
    intro t st r st1 h
    simp only [bwdLoop] at h
    cases hs : bwdStep env ctx init trans invar prop t st with
    | err e s2 => rw [hs] at h; cases h
    | ok out s2 =>
      rcases bwdStep_counters env ctx init trans invar prop t st out s2 hs with
        ⟨ho, e1, e2, e3⟩ | ⟨⟨m, ho⟩, e1, e2, e3⟩
      · subst ho
        simp only [hs] at h
        obtain ⟨f1, f2, f3⟩ := ih (t + 1) s2 r st1 h
        exact ⟨fun hm => by have := f1 hm; omega,
               fun nn hm => by have := f2 nn hm; omega, f3.trans e3⟩
      · subst ho
        simp only [hs] at h
        cases h
        refine ⟨fun hm => by simp at hm, fun nn hm => by omega, e3⟩

theorem zzStep_counters (env : Env) (ctx : TimeCtx) (vars : List String)
    (trans invar : Formula) (t : Int) (st : BmcSt) :
    ∀ out st1, zzStep env ctx vars trans invar t st = .ok out st1 →
      (out = .next () ∧ st1.main.pushes = st.main.pushes + 1 ∧
        st1.main.pops = st.main.pops + 1 ∧ st1.ind = st.ind) ∨
      ((∃ n, out = .ret (t, .tok n)) ∧ st1.main.pushes = st.main.pushes + 1 ∧
        st1.main.pops = st.main.pops ∧ st1.ind = st.ind) := by
  intro out st1 h
  unfold zzStep at h
  dsimp only at h
  cases h1 : zzEqList ctx vars (if t % 2 == 0 then t / 2 else t / 2 + 1) (t / 2 - 1) with
  | error e => rw [h1] at h; cases h
  | ok eqs =>
    rw [h1] at h
    dsimp only at h
    cases h2 : solveMain env (assertMain (pushMain st) (andList eqs)) with
    | mk b st2 =>
      rw [h2] at h
      obtain ⟨a1, a2, a3⟩ := solveMain_snd _ _ _ _ h2
      cases b with
      | true =>
        dsimp only at h
        cases h
        right
        exact ⟨⟨_, rfl⟩, by simp_all, by simp_all, by simp_all⟩
      | false =>
        dsimp only at h
        cases h3 : (if t % 2 == 0 then unroll ctx trans invar (t / 2 + 1) (t / 2)
                    else unroll ctx trans invar (t / 2) (t / 2 + 1)) with
        | error e => rw [h3] at h; cases h
        | ok transT =>
          rw [h3] at h
          cases h
          left
          exact ⟨rfl, by simp_all, by simp_all, by simp_all⟩

theorem zzLoop_counters (env : Env) (ctx : TimeCtx) (vars : List String)
    (trans invar : Formula) :
    ∀ (fuel : Nat) (t : Int) (st : BmcSt) (r : Int × PyModel) (st1 : BmcSt),
      zzLoop env ctx vars trans invar fuel t st = .ok r st1 →
      (r.2 = .none →
        st1.main.pushes + st.main.pops = st.main.pushes + st1.main.pops) ∧
      (∀ n, r.2 = .tok n →
        st1.main.pushes + st.main.pops = st.main.pushes + st1.main.pops + 1) ∧
      st1.ind = st.ind := by
  intro fuel
  induction fuel with
  | zero =>
    intro t st r st1 h
    cases h
    refine ⟨fun _ => by omega, fun n hn => by simp at hn, rfl⟩
  | succ n ih =>
    intro t st r st1 h
    simp only [zzLoop] at h
    cases hs : zzStep env ctx vars trans invar t st with
    | err e s2 => rw [hs] at h; cases h
    | ok out s2 =>
      rcases zzStep_counters env ctx vars trans invar t st out s2 hs with
        ⟨ho, e1, e2, e3⟩ | ⟨⟨m, ho⟩, e1, e2, e3⟩
      · subst ho
        simp only [hs] at h
        obtain ⟨f1, f2, f3⟩ := ih (t + 1) s2 r st1 h
        exact ⟨fun hm => by have := f1 hm; omega,
               fun nn hm => by have := f2 nn hm; omega, f3.trans e3⟩
      · subst ho
        simp only [hs] at h
        cases h
        refine ⟨fun hm => by simp at hm, fun nn hm => by omega, e3⟩

theorem fwdStepFinal_counters (env : Env) (ctx : TimeCtx) (prop propt : Formula)
    (t : Int) (st : BmcSt) :
    ∀ out st1, fwdStepFinal env ctx prop propt t st = .ok out st1 →
      out = .next propt ∧ st1.main.pushes = st.main.pushes ∧
      st1.main.pops = st.main.pops ∧ st1.ind.pushes = st.ind.pushes ∧
      st1.ind.pops = st.ind.pops := by
  intro out st1 h
  unfold fwdStepFinal at h
  split at h
  · split at h
    · cases h
    · cases h
      exact ⟨rfl, by simp, by simp, by simp, by simp⟩
  · cases h
    exact ⟨rfl, rfl, rfl, rfl, rfl⟩

theorem fwdStepEnd_counters (env : Env) (ctx : TimeCtx) (prop propt : Formula)
    (t : Int) (st : BmcSt) :
    ∀ out st1, fwdStepEnd env ctx prop propt t st = .ok out st1 →
      out = .next propt ∧ st1.main.pushes = st.main.pushes ∧
      st1.main.pops = st.main.pops ∧ st1.ind.pushes = st.ind.pushes ∧
      st1.ind.pops = st.ind.pops + 1 := by
  intro out st1 h
  unfold fwdStepEnd at h
  dsimp only at h
  split at h
  · cases h
  · obtain ⟨ho, e1, e2, e3, e4⟩ := fwdStepFinal_counters env ctx prop propt t _ out st1 h
    exact ⟨ho, by simp_all, by simp_all, by simp_all, by simp_all⟩

theorem fwdStepProve_counters (env : Env) (ctx : TimeCtx) (prop propt transT : Formula)
    (kMin : Nat) (t : Int) (st : BmcSt) :
    ∀ out st1, fwdStepProve env ctx prop propt transT kMin t st = .ok out st1 →
      (out = .next propt ∧ st1.main.pushes = st.main.pushes ∧
        st1.main.pops = st.main.pops ∧ st1.ind.pushes = st.ind.pushes + 1 ∧
        st1.ind.pops = st.ind.pops + 1) ∨
      (out = .ret (t, .tru) ∧ st1.main.pushes = st.main.pushes ∧
        st1.main.pops = st.main.pops ∧ st1.ind.pushes = st.ind.pushes + 1 ∧
        st1.ind.pops = st.ind.pops) := by
  intro out st1 h
  unfold fwdStepProve at h
  dsimp only at h
  split at h
  · cases h
  · split at h
    · split at h
      · rename_i st2 heq
        obtain ⟨ho, e1, e2, e3, e4⟩ := fwdStepEnd_counters env ctx prop propt t st2 out st1 h
        obtain ⟨a1, a2, a3⟩ := solveInd_snd _ _ _ _ heq
        left
        exact ⟨ho, by simp_all, by simp_all, by simp_all, by simp_all⟩
      · rename_i st2 heq
        cases h
        obtain ⟨a1, a2, a3⟩ := solveInd_snd _ _ _ _ heq
        right
        exact ⟨rfl, by simp_all, by simp_all, by simp_all, by simp_all⟩
    · obtain ⟨ho, e1, e2, e3, e4⟩ := fwdStepEnd_counters env ctx prop propt t _ out st1 h
      left
      exact ⟨ho, by simp_all, by simp_all, by simp_all, by simp_all⟩

theorem fwdStepRest_counters (env : Env) (ctx : TimeCtx) (trans invar prop propt : Formula)
    (kMin : Nat) (t : Int) (st : BmcSt) :
    ∀ out st1, fwdStepRest env ctx trans invar prop propt kMin t st = .ok out st1 →
      (out = .next propt ∧ st1.main.pushes = st.main.pushes ∧
        st1.main.pops = st.main.pops + 1 ∧
        st1.ind.pushes + st.ind.pops = st.ind.pushes + st1.ind.pops) ∨
      (out = .ret (t, .tru) ∧ st1.main.pushes = st.main.pushes ∧
        st1.main.pops = st.main.pops + 1 ∧
        st1.ind.pushes = st.ind.pushes + 1 ∧ st1.ind.pops = st.ind.pops) := by
  intro out st1 h
  unfold fwdStepRest at h
  dsimp only at h
  split at h
  · cases h
  · split at h
    · rcases fwdStepProve_counters env ctx prop propt _ kMin t _ out st1 h with
        ⟨ho, e1, e2, e3, e4⟩ | ⟨ho, e1, e2, e3, e4⟩
      · left
        have b1 : st1.main.pushes = st.main.pushes := by simpa using e1
        have b2 : st1.main.pops = st.main.pops + 1 := by simpa using e2
        have b3 : st1.ind.pushes = st.ind.pushes + 1 := by simpa using e3
        have b4 : st1.ind.pops = st.ind.pops + 1 := by simpa using e4
        exact ⟨ho, b1, b2, by omega⟩
      · right
        have b1 : st1.main.pushes = st.main.pushes := by simpa using e1
        have b2 : st1.main.pops = st.main.pops + 1 := by simpa using e2
        have b3 : st1.ind.pushes = st.ind.pushes + 1 := by simpa using e3
        have b4 : st1.ind.pops = st.ind.pops := by simpa using e4
        exact ⟨ho, b1, b2, b3, b4⟩
    · obtain ⟨ho, e1, e2, e3, e4⟩ := fwdStepFinal_counters env ctx prop propt t _ out st1 h
      left
      have b1 : st1.main.pushes = st.main.pushes := by simpa using e1
      have b2 : st1.main.pops = st.main.pops + 1 := by simpa using e2
      have b3 : st1.ind.pushes = st.ind.pushes := by simpa using e3
      have b4 : st1.ind.pops = st.ind.pops := by simpa using e4
      exact ⟨ho, b1, b2, by omega⟩

theorem fwdStep_counters (env : Env) (ctx : TimeCtx) (trans invar prop : Formula)
    (nextProp : Bool) (kMin : Nat) (t : Int) (propt : Formula) (st : BmcSt) :
    ∀ out st1, fwdStep env ctx trans invar prop nextProp kMin t propt st = .ok out st1 →
      ((∃ p, out = .next p) ∧ st1.main.pushes = st.main.pushes + 1 ∧
        st1.main.pops = st.main.pops + 1 ∧
        st1.ind.pushes + st.ind.pops = st.ind.pushes + st1.ind.pops) ∨
      ((∃ n, out = .ret (t, .tok n)) ∧ st1.main.pushes = st.main.pushes + 1 ∧
        st1.main.pops = st.main.pops ∧ st1.ind = st.ind) ∨
      (out = .ret (t, .tru) ∧ st1.main.pushes = st.main.pushes + 1 ∧
        st1.main.pops = st.main.pops + 1 ∧
        st1.ind.pushes = st.ind.pushes + 1 ∧ st1.ind.pops = st.ind.pops) := by
  intro out st1 h
  unfold fwdStep at h
  dsimp only at h
  cases hp : fwdPropt ctx prop propt nextProp kMin t with
  | error e => rw [hp] at h; cases h
  | ok propt1 =>
    rw [hp] at h
    dsimp only at h
    split at h
    · split at h
      · rename_i st2 heq
        cases h
        obtain ⟨a1, a2, a3⟩ := solveMain_snd _ _ _ _ heq
        right; left
        exact ⟨⟨_, rfl⟩, by simp_all, by simp_all, by simp_all⟩
      · rename_i st2 heq
        obtain ⟨a1, a2, a3⟩ := solveMain_snd _ _ _ _ heq
        have b1 : st2.main.pushes = st.main.pushes + 1 := by simpa using a1
        have b2 : st2.main.pops = st.main.pops := by simpa using a2
        have b3 : st2.ind = st.ind := by simpa using a3
        rcases fwdStepRest_counters env ctx trans invar prop propt1 kMin t st2 out st1 h with
          ⟨ho, e1, e2, e3⟩ | ⟨ho, e1, e2, e3, e4⟩
        · left
          refine ⟨⟨propt1, ho⟩, by omega, by omega, ?_⟩
          rw [b3] at e3
          omega
        · right; right
          rw [b3] at e3
          rw [b3] at e4
          exact ⟨ho, by omega, by omega, e3, e4⟩
    · rcases fwdStepRest_counters env ctx trans invar prop propt1 kMin t
          (assertMain (pushMain st) propt1) out st1 h with
        ⟨ho, e1, e2, e3⟩ | ⟨ho, e1, e2, e3, e4⟩
      · left
        have b1 : st1.main.pushes = st.main.pushes + 1 := by simpa using e1
        have b2 : st1.main.pops = st.main.pops + 1 := by simpa using e2
        have b3 : st1.ind.pushes + st.ind.pops = st.ind.pushes + st1.ind.pops := by
          simpa using e3
        exact ⟨⟨propt1, ho⟩, b1, b2, b3⟩
      · right; right
        have b1 : st1.main.pushes = st.main.pushes + 1 := by simpa using e1
        have b2 : st1.main.pops = st.main.pops + 1 := by simpa using e2
        have b3 : st1.ind.pushes = st.ind.pushes + 1 := by simpa using e3
        have b4 : st1.ind.pops = st.ind.pops := by simpa using e4
        exact ⟨ho, b1, b2, b3, b4⟩

theorem fwdLoop_counters (env : Env) (ctx : TimeCtx) (trans invar prop : Formula)
    (nextProp : Bool) (kMin : Nat) :
    ∀ (fuel : Nat) (t : Int) (propt : Formula) (st : BmcSt) (r : Int × PyModel) (st1 : BmcSt),
      fwdLoop env ctx trans invar prop nextProp kMin fuel t propt st = .ok r st1 →
      (r.2 = .none →
        st1.main.pushes + st.main.pops = st.main.pushes + st1.main.pops ∧
        st1.ind.pushes + st.ind.pops = st.ind.pushes + st1.ind.pops) ∧
      (∀ n, r.2 = .tok n →
        st1.main.pushes + st.main.pops = st.main.pushes + st1.main.pops + 1 ∧
        st1.ind.pushes + st.ind.pops = st.ind.pushes + st1.ind.pops) ∧
      (r.2 = .tru →
        st1.main.pushes + st.main.pops = st.main.pushes + st1.main.pops ∧
        st1.ind.pushes + st.ind.pops = st.ind.pushes + st1.ind.pops + 1) := by
  intro fuel
  induction fuel with
  | zero =>
    intro t propt st r st1 h
    cases h
    exact ⟨fun _ => ⟨by omega, by omega⟩, fun n hn => by simp at hn, fun hn => by simp at hn⟩
  | succ n ih =>
    intro t propt st r st1 h
    simp only [fwdLoop] at h
    cases hs : fwdStep env ctx trans invar prop nextProp kMin t propt st with
    | err e s2 => rw [hs] at h; cases h
    | ok out s2 =>
      rcases fwdStep_counters env ctx trans invar prop nextProp kMin t propt st out s2 hs with
        ⟨⟨p, ho⟩, e1, e2, e3⟩ | ⟨⟨mm, ho⟩, e1, e2, e3⟩ | ⟨ho, e1, e2, e3, e4⟩
      · subst ho
        simp only [hs] at h
        obtain ⟨f1, f2, f3⟩ := ih (t + 1) p s2 r st1 h
        refine ⟨fun hm => ?_, fun nn hm => ?_, fun hm => ?_⟩
        · obtain ⟨g1, g2⟩ := f1 hm
          exact ⟨by omega, by omega⟩
        · obtain ⟨g1, g2⟩ := f2 nn hm
          exact ⟨by omega, by omega⟩
        · obtain ⟨g1, g2⟩ := f3 hm
          exact ⟨by omega, by omega⟩
      · subst ho
        simp only [hs] at h
        cases h
        have c1 : st1.ind.pushes = st.ind.pushes := by rw [e3]
        have c2 : st1.ind.pops = st.ind.pops := by rw [e3]
        refine ⟨fun hm => by simp at hm, fun nn hm => ⟨by omega, by omega⟩,
               fun hm => by simp at hm⟩
      · subst ho
        simp only [hs] at h
        cases h
        refine ⟨fun hm => by simp at hm, fun nn hm => by simp at hm,
               fun hm => ⟨by omega, by omega⟩⟩

theorem solveIncFwd_counters (env : Env) (ctx : TimeCtx) (hts : HTS) (prop : Formula)
    (k kMin : Nat) (st0 : BmcSt) (t : Int) (m : PyModel) (st1 : BmcSt)
    (h : solveIncFwd env ctx hts prop k kMin st0 = .ok (t, m) st1) :
    (m = .none →
      st1.main.pushes + st0.main.pops = st0.main.pushes + st1.main.pops ∧
      st1.ind.pushes + st0.ind.pops = st0.ind.pushes + st1.ind.pops) ∧
    (∀ n, m = .tok n →
      st1.main.pushes + st0.main.pops = st0.main.pushes + st1.main.pops + 1 ∧
      st1.ind.pushes + st0.ind.pops = st0.ind.pushes + st1.ind.pops) ∧
    (m = .tru →
      st1.main.pushes + st0.main.pops = st0.main.pushes + st1.main.pops ∧
      st1.ind.pushes + st0.ind.pops = st0.ind.pushes + st1.ind.pops + 1) := by
  unfold solveIncFwd at h
  dsimp only at h
  split at h
  · cases h
  · rename_i f0 heq0
    split at h
    · cases h
    · rename_i st2 heq2
      split at h
      · cases h
      · have hst2 : st2.main.pushes = st0.main.pushes ∧ st2.main.pops = st0.main.pops ∧
            st2.ind.pushes = st0.ind.pushes ∧ st2.ind.pops = st0.ind.pops := by
          split at heq2
          · split at heq2
            · cases heq2
            · cases heq2
              exact ⟨by simp, by simp, by simp, by simp⟩
          · cases heq2
            exact ⟨by simp, by simp, by simp, by simp⟩
        obtain ⟨c1, c2, c3, c4⟩ := hst2
        obtain ⟨f1, f2, f3⟩ := fwdLoop_counters env ctx _ _ prop _ _ (k + 1) 0
          Formula.fls st2 (t, m) st1 h
        refine ⟨fun hm => ?_, fun nn hm => ?_, fun hm => ?_⟩
        · obtain ⟨g1, g2⟩ := f1 hm
          exact ⟨by omega, by omega⟩
        · obtain ⟨g1, g2⟩ := f2 nn hm
          exact ⟨by omega, by omega⟩
        · obtain ⟨g1, g2⟩ := f3 hm
          exact ⟨by omega, by omega⟩

theorem solveIncBwd_counters (env : Env) (ctx : TimeCtx) (hts : HTS) (prop : Formula)
    (k : Nat) (st0 : BmcSt) (t : Int) (m : PyModel) (st1 : BmcSt)
    (h : solveIncBwd env ctx hts prop k st0 = .ok (t, m) st1) :
    (m = .none → st1.main.pushes + st0.main.pops = st0.main.pushes + st1.main.pops) ∧
    (∀ n, m = .tok n →
      st1.main.pushes + st0.main.pops = st0.main.pushes + st1.main.pops + 1) ∧
    st1.ind = st0.ind := by
  unfold solveIncBwd at h
  dsimp only at h
  split at h
  · cases h
  · split at h
    · cases h
    · obtain ⟨f1, f2, f3⟩ := bwdLoop_counters env ctx hts.init hts.trans hts.invar prop
        (k + 1) 0 _ (t, m) st1 h
      refine ⟨fun hm => ?_, fun nn hm => ?_, by simpa using f3⟩
      · have hx := f1 hm
        simp at hx
        omega
      · have hx := f2 nn hm
        simp at hx
        omega

theorem solveIncZz_counters (env : Env) (ctx : TimeCtx) (hts : HTS) (prop : Formula)
    (k : Nat) (st0 : BmcSt) (t : Int) (m : PyModel) (st1 : BmcSt)
    (h : solveIncZz env ctx hts prop k st0 = .ok (t, m) st1) :
    (m = .none → st1.main.pushes + st0.main.pops = st0.main.pushes + st1.main.pops) ∧
    (∀ n, m = .tok n →
      st1.main.pushes + st0.main.pops = st0.main.pushes + st1.main.pops + 1) ∧
    st1.ind = st0.ind := by
  unfold solveIncZz at h
  dsimp only at h
  split at h
  · cases h
  · split at h
    · cases h
    · split at h
      · cases h
      · obtain ⟨f1, f2, f3⟩ := zzLoop_counters env ctx hts.vars hts.trans hts.invar
          (k + 1) 0 _ (t, m) st1 h
        refine ⟨fun hm => ?_, fun nn hm => ?_, by simpa using f3⟩
        · have hx := f1 hm
          simp at hx
          omega
        · have hx := f2 nn hm
          simp at hx
          omega

theorem solveFwd_counters (env : Env) (ctx : TimeCtx) (hts : HTS) (prop : Formula)
    (k : Nat) (shortest : Bool) (st0 : BmcSt) (t : Int) (m : PyModel) (st1 : BmcSt)
    (h : solveFwd env ctx hts prop k shortest st0 = .ok (t, m) st1) :
    st1.main.pushes = st0.main.pushes ∧ st1.main.pops = st0.main.pops ∧
    st1.ind = st0.ind := by
  unfold solveFwd at h
  split at h
  · exact solveFwdLoop_counters env ctx hts.init hts.trans hts.invar prop _ _ st0 (t, m) st1 h
  · exact solveFwdLoop_counters env ctx hts.init hts.trans hts.invar prop _ _ st0 (t, m) st1 h

/-- C3 (amended): after a full search call that exhausts the horizon
(returning `(-1, None)`), every solver has performed as many pushes as pops;
and `solve_fwd` performs no pushes or pops at all.  But a counterexample
return (`(t, model)`) from `solve_inc_fwd`, `solve_inc_bwd` or `solve_inc_zz`
leaves exactly one more push than pops on the main solver (the `return`
happens between `_push` and `_pop`), and an induction-success return
(`(t, True)`) from `solve_inc_fwd` leaves exactly one more push than pops on
the induction solver. -/
theorem push_pop_discipline (env : Env) (ctx : TimeCtx) (hts : HTS) (prop : Formula)
    (k kMin : Nat) (shortest : Bool) (st0 : BmcSt) (t : Int) (m : PyModel)
    (st1 : BmcSt) :
    (solveIncFwd env ctx hts prop k kMin st0 = .ok (t, m) st1 →
      (m = .none →
        st1.main.pushes + st0.main.pops = st0.main.pushes + st1.main.pops ∧
        st1.ind.pushes + st0.ind.pops = st0.ind.pushes + st1.ind.pops) ∧
      (∀ n, m = .tok n →
        st1.main.pushes + st0.main.pops = st0.main.pushes + st1.main.pops + 1 ∧
        st1.ind.pushes + st0.ind.pops = st0.ind.pushes + st1.ind.pops) ∧
      (m = .tru →
        st1.main.pushes + st0.main.pops = st0.main.pushes + st1.main.pops ∧
        st1.ind.pushes + st0.ind.pops = st0.ind.pushes + st1.ind.pops + 1)) ∧
    (solveIncBwd env ctx hts prop k st0 = .ok (t, m) st1 →
      (m = .none → st1.main.pushes + st0.main.pops = st0.main.pushes + st1.main.pops) ∧
      (∀ n, m = .tok n →
        st1.main.pushes + st0.main.pops = st0.main.pushes + st1.main.pops + 1) ∧
      st1.ind = st0.ind) ∧
    (solveIncZz env ctx hts prop k st0 = .ok (t, m) st1 →
      (m = .none → st1.main.pushes + st0.main.pops = st0.main.pushes + st1.main.pops) ∧
      (∀ n, m = .tok n →
        st1.main.pushes + st0.main.pops = st0.main.pushes + st1.main.pops + 1) ∧
      st1.ind = st0.ind) ∧
    (solveFwd env ctx hts prop k shortest st0 = .ok (t, m) st1 →
      st1.main.pushes = st0.main.pushes ∧ st1.main.pops = st0.main.pops ∧
      st1.ind = st0.ind) :=
  ⟨fun h => solveIncFwd_counters env ctx hts prop k kMin st0 t m st1 h,
   fun h => solveIncBwd_counters env ctx hts prop k st0 t m st1 h,
   fun h => solveIncZz_counters env ctx hts prop k st0 t m st1 h,
   fun h => solveFwd_counters env ctx hts prop k shortest st0 t m st1 h⟩

/-- C3 witness: a concrete exhausted `solve_fwd` run over the empty system
performs no pushes and no pops. -/
theorem push_pop_discipline_witness :
    stFwdW.main.pushes = bmc0.main.pushes ∧ stFwdW.main.pops = bmc0.main.pops ∧
    stFwdW.ind = bmc0.ind :=
  (push_pop_discipline envE ctxE htsE Formula.tru 0 0 true bmc0 (-1)
    PyModel.none stFwdW).2.2.2 (by decide)

/-- C3 counterexample: `solve_inc_bwd` over `[x]` with a sat engine at
`k = 0` returns the counterexample `(0, model)` having performed one push
and zero pops — the claim says pushes equal pops after any full search call,
including a counterexample return. -/
theorem push_pop_claim_counterexample :
    retDepth (solveIncBwd envTrue (ctxX 0) htsX propX 0 bmc0) = some 0 ∧
    mainPushPop (solveIncBwd envTrue (ctxX 0) htsX propX 0 bmc0) = some (1, 0) ∧
    (1 : Nat) ≠ 0 := by
  refine ⟨by decide, by decide, by decide⟩

end CoSA
